import Mathlib

/-!
# Verification of the KondateAgent recipe collection and scoring pipeline

A shallow embedding, in Lean 4, of the backend's recipe pipeline:

* `app/services/recipe_cache.py` — in-memory TTL cache (`RecipeCache`);
* `app/services/recipe_matcher.py` — fallback scoring (`RecipeMatcher._fallback_score`);
* `app/services/recipe_collection_service.py` — the orchestrator
  (`search_recipes`, `_search_all_platforms`, `_search_youtube`,
  `_search_instagram`, `_convert_to_recipes`, `_score_recipes`);
* `app/services/instagram_client.py` / `app/services/youtube_client.py` —
  HTTP error mapping;
* `app/routers/recipes.py` — the SSE streaming endpoint event sequence.

Python dictionaries are embedded as insertion-ordered association lists with
unique keys; `datetime` values are embedded as integers (seconds); Python
floats arising from `matched / total` and `round(x, 2)` are embedded as
rationals with round-half-to-even; external collaborators (language model,
platform HTTP APIs, uuid generation, the clock) are oracle parameters.
-/

namespace Kondate

/-! ## Association lists embedding Python `dict`

A Python `dict` is insertion-ordered with unique keys.  `lookupL` is
`d.get(k)`, `updEntry` is `d[k] = v` (update in place, or append for a new
key), `delKey` is `d.pop(k, None)`. -/

/-- First value stored under key `k`, like `dict.get`. -/
def lookupL [DecidableEq κ] (l : List (κ × ν)) (k : κ) : Option ν :=
  (l.find? (fun p => p.1 = k)).map (·.2)

/-- Python `d[k] = v`: replace the value of an existing key in place,
otherwise append the new binding at the end. -/
def updEntry [DecidableEq κ] (l : List (κ × ν)) (k : κ) (v : ν) : List (κ × ν) :=
  if l.any (fun p => p.1 = k) then
    l.map (fun p => if p.1 = k then (k, v) else p)
  else
    l ++ [(k, v)]

/-- Python `d.pop(k, None)` restricted to its effect on the dictionary. -/
def delKey [DecidableEq κ] (l : List (κ × ν)) (k : κ) : List (κ × ν) :=
  l.filter (fun p => ¬ p.1 = k)

/-! ## Python string operations

`strIn needle hay` embeds Python `needle in hay`; `pyLower` embeds
`str.lower` (ASCII); `pyStrip` embeds `str.strip` (both strip whitespace at
both ends).  These are written by structural recursion on the character
list so that concrete instances evaluate inside the kernel. -/

/-- Whether the first list of characters is an initial segment of the second. -/
def listStarts : List Char → List Char → Bool
  | [], _ => true
  | _ :: _, [] => false
  | a :: as, b :: bs => a == b && listStarts as bs

/-- Whether the first list occurs contiguously inside the second. -/
def listHasSub (n : List Char) : List Char → Bool
  | [] => n.isEmpty
  | c :: t => listStarts n (c :: t) || listHasSub n t

/-- Python `needle in hay` for strings. -/
def strIn (needle hay : String) : Bool :=
  listHasSub needle.data hay.data

/-- Python `str.lower` (ASCII case folding, done characterwise so that it
evaluates in the kernel). -/
def pyLower (s : String) : String :=
  ⟨s.data.map Char.toLower⟩

/-- Python `str.strip`: drop whitespace from both ends. -/
def pyStrip (s : String) : String :=
  ⟨((s.data.dropWhile Char.isWhitespace).reverse.dropWhile
      Char.isWhitespace).reverse⟩

/-! ## Rounding

`roundFrac2 m n` embeds Python `round(m / n, 2)` for naturals `m ≤ n`,
`n > 0`: round half to even at the second decimal, returned as an exact
rational.  (Binary-float artifacts of CPython `round` on non-representable
quotients are below the resolution of the specification, which only says
"rounded to 2 decimals".) -/

/-- Round `m / n` to 2 decimal places, ties to even. -/
def roundFrac2 (m n : ℕ) : ℚ :=
  let a := 100 * m
  let q := a / n
  let r := a % n
  let rounded : ℕ :=
    if 2 * r < n then q
    else if n < 2 * r then q + 1
    else if q % 2 = 0 then q else q + 1
  mkRat rounded 100

/-! ## Data model (`app/models/recipe.py` and the service result classes) -/

/-- The `Literal["youtube", "instagram"]` source discriminator. -/
inductive Source
  | youtube
  | instagram
deriving DecidableEq, Repr

/-- The `Recipe` pydantic model (`app/models/recipe.py`).  Datetimes are
embedded as integer timestamps.  `id` is a uuid4 string assigned at
construction; `cached_at` defaults to the construction time. -/
structure Recipe where
  id : String
  source : Source
  sourceId : String
  url : String
  thumbnailUrl : String
  title : String
  creatorName : String
  creatorId : String
  extractedIngredients : List String
  rawDescription : String
  duration : Option String
  postedAt : Int
  cachedAt : Int
  cacheExpiresAt : Int
deriving DecidableEq, Repr

/-- `RecipeMatchScore` (`app/services/recipe_matcher.py`). -/
structure RecipeMatchScore where
  coverageScore : ℚ
  missingIngredients : List String
  reasoning : String
deriving DecidableEq, Repr

/-- `ScoredRecipe` (`app/services/recipe_collection_service.py`). -/
structure ScoredRecipe where
  recipe : Recipe
  score : RecipeMatchScore
deriving DecidableEq, Repr

/-- `YouTubeSearchResult` (`app/services/youtube_client.py`). -/
structure YouTubeSearchResult where
  videoId : String
  title : String
  thumbnailUrl : String
  channelId : String
  channelName : String
  description : String
  publishedAt : Int
  duration : Option String
deriving DecidableEq, Repr

/-- The `url` property of `YouTubeSearchResult`. -/
def YouTubeSearchResult.url (r : YouTubeSearchResult) : String :=
  "https://www.youtube.com/watch?v=" ++ r.videoId

/-- `InstagramSearchResult` (`app/services/instagram_client.py`). -/
structure InstagramSearchResult where
  postId : String
  shortcode : String
  caption : String
  thumbnailUrl : String
  accountUsername : String
  accountId : String
  postedAt : Int
deriving DecidableEq, Repr

/-- The `url` property of `InstagramSearchResult`. -/
def InstagramSearchResult.url (r : InstagramSearchResult) : String :=
  "https://www.instagram.com/p/" ++ r.shortcode ++ "/"

/-- `ParsedRecipeIngredients` (`app/services/description_parser.py`). -/
structure ParsedRecipeIngredients where
  ingredients : List String
  confidence : ℚ
deriving DecidableEq, Repr

/-- `PreferredCreator` (`app/models/recipe.py`), restricted to the fields the
orchestrator reads. -/
structure PreferredCreator where
  userId : String
  source : Source
  creatorId : String
  creatorName : String
deriving DecidableEq, Repr

/-! ## `RecipeCache` (`app/services/recipe_cache.py`)

The cache holds two Python dicts: `_recipes : recipe_id -> Recipe` and
`_source_index : (source, source_id) -> recipe_id`.  Every method that
consults the clock receives `now` explicitly. -/

/-- The mutable state of a `RecipeCache` instance. -/
structure CacheState where
  recipes : List (String × Recipe)
  sourceIndex : List ((Source × String) × String)
  defaultTtlDays : Int
deriving DecidableEq, Repr

/-- A fresh `RecipeCache()` with the default TTL of 30 days. -/
def emptyCache : CacheState :=
  { recipes := [], sourceIndex := [], defaultTtlDays := 30 }

/-- Seconds per day, for `timedelta(days=n)`. -/
def secondsPerDay : Int := 86400

/-- `RecipeCache._remove`: pop the recipe and, when it was present, pop the
index entry stored under that recipe's own `(source, source_id)` key. -/
def cacheRemove (st : CacheState) (recipeId : String) : CacheState :=
  match lookupL st.recipes recipeId with
  | none => st
  | some r =>
    { st with
      recipes := delKey st.recipes recipeId
      sourceIndex := delKey st.sourceIndex (r.source, r.sourceId) }

/-- `RecipeCache.get`: return the recipe when present and unexpired; evict it
when present but expired (`cache_expires_at > now` fails). -/
def cacheGet (st : CacheState) (recipeId : String) (now : Int) :
    Option Recipe × CacheState :=
  match lookupL st.recipes recipeId with
  | some r =>
    if now < r.cacheExpiresAt then (some r, st)
    else (none, cacheRemove st recipeId)
  | none => (none, st)

/-- `RecipeCache.get_by_source`: look the id up in the secondary index and
delegate to `get`.  Python tests the id with `if recipe_id:`, so an empty
string id is treated as a miss. -/
def cacheGetBySource (st : CacheState) (source : Source) (sourceId : String)
    (now : Int) : Option Recipe × CacheState :=
  match lookupL st.sourceIndex (source, sourceId) with
  | some recipeId =>
    if recipeId = "" then (none, st) else cacheGet st recipeId now
  | none => (none, st)

/-- `RecipeCache.put`: default the expiry to `now + default_ttl_days` when it
is not later than `cached_at`, then store the recipe in both maps.  (The
pydantic `Recipe` model makes `cache_expires_at` a required `datetime`, so
the `is None` arm of the Python guard is unreachable.) -/
def cachePut (st : CacheState) (r : Recipe) (now : Int) : CacheState :=
  let stored :=
    if r.cacheExpiresAt ≤ r.cachedAt then
      { r with cacheExpiresAt := now + st.defaultTtlDays * secondsPerDay }
    else r
  { st with
    recipes := updEntry st.recipes stored.id stored
    sourceIndex := updEntry st.sourceIndex (stored.source, stored.sourceId) stored.id }

/-- `RecipeCache.cleanup_expired`: collect the expired ids, `_remove` each,
and return how many ids were collected. -/
def cacheCleanupExpired (st : CacheState) (now : Int) : Nat × CacheState :=
  let expiredIds :=
    (st.recipes.filter (fun p => p.2.cacheExpiresAt ≤ now)).map (·.1)
  (expiredIds.length, expiredIds.foldl cacheRemove st)

/-! ## Cache operation sequences (for the cache invariant)

An arbitrary client interleaving of the four public cache operations,
applied from a fresh cache. -/

/-- One public operation on the shared `RecipeCache` singleton. -/
inductive CacheOp
  | putOp (r : Recipe) (now : Int)
  | getOp (recipeId : String) (now : Int)
  | getBySourceOp (source : Source) (sourceId : String) (now : Int)
  | cleanupOp (now : Int)
deriving DecidableEq, Repr

/-- State transition of one cache operation (the returned value, if any, is
irrelevant to the invariant). -/
def applyOp (st : CacheState) : CacheOp → CacheState
  | .putOp r now => cachePut st r now
  | .getOp recipeId now => (cacheGet st recipeId now).2
  | .getBySourceOp source sourceId now => (cacheGetBySource st source sourceId now).2
  | .cleanupOp now => (cacheCleanupExpired st now).2

/-- Run a sequence of operations from a fresh cache. -/
def runOps (ops : List CacheOp) : CacheState :=
  ops.foldl applyOp emptyCache

/-- Key coherence of a cache state relative to an assignment `keyFn` of a
single `(source, source_id)` per recipe id: every primary entry is stored
under its own id and carries its assigned key, and every index entry points
to a live primary entry carrying exactly the index key. -/
def cacheConsistent (keyFn : String → Source × String) (st : CacheState) : Prop :=
  (∀ rid r, lookupL st.recipes rid = some r →
      rid = r.id ∧ (r.source, r.sourceId) = keyFn rid) ∧
  (∀ k rid, lookupL st.sourceIndex k = some rid →
      keyFn rid = k ∧
      ∃ r, lookupL st.recipes rid = some r ∧ (r.source, r.sourceId) = k)

/-! ## Concrete cache instances used for witnesses and counterexamples -/

/-- A recipe that is fresh (expiry far in the future) at time 0. -/
def wFreshRecipe : Recipe :=
  { id := "rid-fresh", source := .youtube, sourceId := "vid1"
    url := "u", thumbnailUrl := "t", title := "Fresh", creatorName := "c"
    creatorId := "ch", extractedIngredients := ["egg", "rice"]
    rawDescription := "d", duration := none
    postedAt := 0, cachedAt := 0, cacheExpiresAt := 9999 }

/-- A recipe whose expiry (5) has passed by time 10. -/
def wOldRecipe : Recipe :=
  { id := "rid-old", source := .youtube, sourceId := "vid2"
    url := "u", thumbnailUrl := "t", title := "Old", creatorName := "c"
    creatorId := "ch", extractedIngredients := ["milk"]
    rawDescription := "d", duration := none
    postedAt := 0, cachedAt := 0, cacheExpiresAt := 5 }

/-- A cache holding only `wOldRecipe`. -/
def wOldState : CacheState := cachePut emptyCache wOldRecipe 0

/-- First of two distinct recipes sharing `(source, source_id)` = (youtube, "x"). -/
def cRecipeA : Recipe :=
  { id := "a", source := .youtube, sourceId := "x"
    url := "u", thumbnailUrl := "t", title := "first", creatorName := "c"
    creatorId := "ch", extractedIngredients := ["egg"]
    rawDescription := "d", duration := none
    postedAt := 0, cachedAt := 0, cacheExpiresAt := 100 }

/-- Second of two distinct recipes sharing `(source, source_id)` = (youtube, "x"). -/
def cRecipeB : Recipe :=
  { id := "b", source := .youtube, sourceId := "x"
    url := "u", thumbnailUrl := "t", title := "second", creatorName := "c"
    creatorId := "ch", extractedIngredients := ["egg"]
    rawDescription := "d", duration := none
    postedAt := 0, cachedAt := 0, cacheExpiresAt := 100 }

/-- Put two distinct recipes with the same `(source, source_id)`. -/
def opsC4 : List CacheOp := [.putOp cRecipeA 0, .putOp cRecipeB 0]

/-- Put only `cRecipeA`, a key-coherent operation sequence. -/
def opsW4 : List CacheOp := [.putOp cRecipeA 0]

/-- Key assignment matching `opsW4`. -/
def keyFnW : String → Source × String := fun _ => (.youtube, "x")

/-! ## `RecipeMatcher` (`app/services/recipe_matcher.py`)

`score` calls the language model; a refusal or unparsed response falls back
to `_fallback_score`.  The model call is an oracle returning `none` for a
decline. -/

/-- `RecipeMatcher._fallback_score`: case-insensitive substring matching over
whitespace-stripped ingredient names. -/
def fallbackScore (userIngredients recipeIngredients : List String) :
    RecipeMatchScore :=
  if recipeIngredients = [] then
    { coverageScore := 0, missingIngredients := []
      reasoning := "No recipe ingredients to match" }
  else
    let userSet := userIngredients.map (fun ing => pyStrip (pyLower ing))
    let recipeList := recipeIngredients.map (fun ing => pyStrip ing)
    let step := recipeList.foldl
      (fun (acc : Nat × List String) recipeIng =>
        let recipeIngLower := pyLower recipeIng
        let hasIngredient := userSet.any (fun userIng =>
          strIn userIng recipeIngLower || strIn recipeIngLower userIng)
        if hasIngredient then (acc.1 + 1, acc.2)
        else (acc.1, acc.2 ++ [recipeIng]))
      (0, [])
    { coverageScore := roundFrac2 step.1 recipeList.length
      missingIngredients := step.2
      reasoning := "Simple match: " ++ toString step.1 ++ "/" ++
        toString recipeList.length ++ " ingredients available" }

/-- `RecipeMatcher.score`: empty recipe ingredients short-circuit to a zero
score; a model decline (`none`) falls back to `_fallback_score`. -/
def matcherScore (model : List String → List String → Option RecipeMatchScore)
    (userIngredients recipeIngredients : List String) : RecipeMatchScore :=
  if recipeIngredients = [] then
    { coverageScore := 0, missingIngredients := []
      reasoning := "Recipe has no ingredients listed" }
  else
    match model userIngredients recipeIngredients with
    | some s => s
    | none => fallbackScore userIngredients recipeIngredients

/-- The matching predicate of `_fallback_score`, extracted: user ingredients
are lowercased and stripped, recipe ingredients are stripped before the
two-way substring test. -/
def fallbackHas (userIngredients : List String) (strippedRecipeIng : String) :
    Bool :=
  (userIngredients.map (fun ing => pyStrip (pyLower ing))).any (fun userIng =>
    strIn userIng (pyLower strippedRecipeIng) ||
    strIn (pyLower strippedRecipeIng) userIng)

/-- Stated from the claim's words, for the C5 counterexample (deliberately
not from the source): a recipe ingredient is "have" iff some user ingredient
is a case-insensitive substring of it or vice versa, with no whitespace
stripping, and `missing_ingredients` lists the unmatched recipe ingredients
verbatim. -/
def claimFallbackMissing (userIngredients recipeIngredients : List String) :
    List String :=
  recipeIngredients.filter (fun recipeIng =>
    ¬ userIngredients.any (fun userIng =>
      strIn (pyLower userIng) (pyLower recipeIng) ||
      strIn (pyLower recipeIng) (pyLower userIng)))

/-! ## Platform search tasks (`_search_youtube` / `_search_instagram`)

The HTTP clients are oracles mapping a call's arguments to either a result
list or a platform API error (the per-query `try/except` swallows errors and
continues). -/

/-- Deduplication loop with a `seen` set, keeping the first occurrence of
each key. -/
def dedupByKeyAux (key : α → String) (seen : List String) : List α → List α
  | [] => []
  | x :: xs =>
    if key x ∈ seen then dedupByKeyAux key seen xs
    else x :: dedupByKeyAux key (key x :: seen) xs

/-- Deduplicate by a key, preserving first-seen order. -/
def dedupByKey (key : α → String) (l : List α) : List α :=
  dedupByKeyAux key [] l

/-- The tail of both platform tasks: deduplicate the accumulated raw results
by native content id, then cap at 40. -/
def platformDedupCap (key : α → String) (l : List α) : List α :=
  (dedupByKey key l).take 40

/-- Python `query.split()[0]`: first whitespace-separated token, or an
`IndexError` (`none`) when the query has no tokens. -/
def pyFirstWord (s : String) : Option String :=
  match s.data.dropWhile Char.isWhitespace with
  | [] => none
  | c :: rest => some ⟨(c :: rest).takeWhile (fun ch => ¬ Char.isWhitespace ch)⟩

/-- `RecipeCollectionService._search_youtube`: preferred channels first
(3 queries per channel, 5 results each), then the first 5 queries generally
(8 results each); each call's `YouTubeAPIError` is swallowed; dedup by
`video_id` and cap at 40. -/
def searchYoutube
    (client : String → Nat → Option String → Except String (List YouTubeSearchResult))
    (queries : List String) (preferredChannels : List String) :
    List YouTubeSearchResult :=
  let fromChannels := preferredChannels.flatMap (fun channelId =>
    (queries.take 3).flatMap (fun q =>
      match client q 5 (some channelId) with
      | .ok results => results
      | .error _ => []))
  let fromGeneral := (queries.take 5).flatMap (fun q =>
    match client q 8 none with
    | .ok results => results
    | .error _ => [])
  platformDedupCap (·.videoId) (fromChannels ++ fromGeneral)

/-- The general hashtag loop of `_search_instagram`.  A query with no first
word raises `IndexError`, which escapes the per-query `except
InstagramAPIError` and lands in the outer `except Exception: pass`, aborting
the remaining queries while keeping what accumulated. -/
def igGeneralLoop (client : String → Nat → Except String (List InstagramSearchResult)) :
    List String → List InstagramSearchResult
  | [] => []
  | q :: rest =>
    match pyFirstWord q with
    | none => []
    | some hashtag =>
      (match client hashtag 8 with
        | .ok results => results
        | .error _ => []) ++ igGeneralLoop client rest

/-- `RecipeCollectionService._search_instagram`: preferred accounts first
(10 results each), then the hashtag loop over the first 5 queries; dedup by
`post_id` and cap at 40.  The account branch of `search_posts` takes the
account, not the query. -/
def searchInstagram
    (clientByAccount : String → Nat → Except String (List InstagramSearchResult))
    (clientByHashtag : String → Nat → Except String (List InstagramSearchResult))
    (queries : List String) (preferredAccounts : List String) :
    List InstagramSearchResult :=
  let fromAccounts := preferredAccounts.flatMap (fun account =>
    match clientByAccount account 10 with
    | .ok results => results
    | .error _ => [])
  let fromGeneral := igGeneralLoop clientByHashtag (queries.take 5)
  platformDedupCap (·.postId) (fromAccounts ++ fromGeneral)

/-- Raw YouTube result, id "a", first occurrence. -/
def wYtA1 : YouTubeSearchResult :=
  { videoId := "a", title := "t1", thumbnailUrl := "", channelId := "c"
    channelName := "n", description := "d", publishedAt := 0, duration := none }

/-- Raw YouTube result sharing id "a" with a different title. -/
def wYtA2 : YouTubeSearchResult :=
  { videoId := "a", title := "t2", thumbnailUrl := "", channelId := "c"
    channelName := "n", description := "d", publishedAt := 0, duration := none }

/-- Raw YouTube result with the distinct id "b". -/
def wYtB : YouTubeSearchResult :=
  { videoId := "b", title := "t3", thumbnailUrl := "", channelId := "c"
    channelName := "n", description := "d", publishedAt := 0, duration := none }

/-! ## Content-source client error mapping
(`youtube_client.py` / `instagram_client.py`)

The HTTP layer is an oracle outcome: a parsed success payload, an
`httpx.HTTPStatusError` with a status code (from `raise_for_status`), or an
`httpx.RequestError`.  Payload normalization (`_parse_posts` and the YouTube
item loop) is abstracted to the already-normalized value: only the error
mapping is under test. -/

/-- Outcome of one HTTP call, as seen by the `try/except` blocks. -/
inductive HttpOutcome (α : Type)
  | success (payload : α)
  | statusError (code : Nat) (text : String)
  | requestError (msg : String)
deriving DecidableEq, Repr

/-- `InstagramAPIError` / `YouTubeAPIError`: message plus optional status. -/
structure PlatformAPIError where
  message : String
  statusCode : Option Nat
deriving DecidableEq, Repr

/-- A single-quote character, used to render the quoted username in the
Python account-not-found message. -/
def sq : String := String.singleton (Char.ofNat 39)

/-- `InstagramClient._search_by_account` error mapping: 429, 403, then 404
map to typed errors — the 404 arm RAISES `InstagramAPIError(..., 404)` —
and anything else maps to the generic HTTP/request error. -/
def igSearchByAccount (resp : HttpOutcome (List InstagramSearchResult))
    (username : String) : Except PlatformAPIError (List InstagramSearchResult) :=
  match resp with
  | .success payload => .ok payload
  | .statusError code text =>
    if code = 429 then .error { message := "Rate limit exceeded", statusCode := some 429 }
    else if code = 403 then
      .error { message := "API key invalid or quota exceeded", statusCode := some 403 }
    else if code = 404 then
      .error { message := "Account " ++ sq ++ username ++ sq ++ " not found"
               statusCode := some 404 }
    else .error { message := "HTTP " ++ toString code ++ ": " ++ text
                  statusCode := some code }
  | .requestError msg =>
    .error { message := "Request failed: " ++ msg, statusCode := none }

/-- `InstagramClient._search_by_hashtag` error mapping: no 404 arm — a 404
maps to the generic HTTP error. -/
def igSearchByHashtag (resp : HttpOutcome (List InstagramSearchResult)) :
    Except PlatformAPIError (List InstagramSearchResult) :=
  match resp with
  | .success payload => .ok payload
  | .statusError code text =>
    if code = 429 then .error { message := "Rate limit exceeded", statusCode := some 429 }
    else if code = 403 then
      .error { message := "API key invalid or quota exceeded", statusCode := some 403 }
    else .error { message := "HTTP " ++ toString code ++ ": " ++ text
                  statusCode := some code }
  | .requestError msg =>
    .error { message := "Request failed: " ++ msg, statusCode := none }

/-- `InstagramClient.get_post_details` error mapping: the 404 arm RETURNS
`None` instead of raising. -/
def igGetPostDetails (resp : HttpOutcome (Option InstagramSearchResult)) :
    Except PlatformAPIError (Option InstagramSearchResult) :=
  match resp with
  | .success payload => .ok payload
  | .statusError code text =>
    if code = 429 then .error { message := "Rate limit exceeded", statusCode := some 429 }
    else if code = 403 then
      .error { message := "API key invalid or quota exceeded", statusCode := some 403 }
    else if code = 404 then .ok none
    else .error { message := "HTTP " ++ toString code ++ ": " ++ text
                  statusCode := some code }
  | .requestError msg =>
    .error { message := "Request failed: " ++ msg, statusCode := none }

/-- `YouTubeClient.search_videos` error mapping (identical with or without a
`channel_id` filter): 429 and 403 are typed; there is no 404 arm at all, so
an account-scoped (channel-filtered) search answered 404 raises the generic
HTTP error. -/
def ytSearchVideos (resp : HttpOutcome (List YouTubeSearchResult)) :
    Except PlatformAPIError (List YouTubeSearchResult) :=
  match resp with
  | .success payload => .ok payload
  | .statusError code text =>
    if code = 429 then .error { message := "Rate limit exceeded", statusCode := some 429 }
    else if code = 403 then
      .error { message := "API key invalid or quota exceeded", statusCode := some 403 }
    else .error { message := "HTTP " ++ toString code ++ ": " ++ text
                  statusCode := some code }
  | .requestError msg =>
    .error { message := "Request failed: " ++ msg, statusCode := none }

/-! ## The orchestration pipeline
(`RecipeCollectionService.search_recipes` and its steps)

Oracles: `queryGen` is `QueryGenerator.generate`; `creators` is
`creator_store.list_by_user`; `ytTask`/`igTask` are the two platform tasks as
launched by `_search_all_platforms` (an `Except.error` is a task that raised;
in the non-exceptional case they compute `searchYoutube`/`searchInstagram`);
`parse` is `DescriptionParser.parse` (raising is `Except.error`); `matchModel`
is the structured-output model call inside `RecipeMatcher.score` (`none` is a
decline, routed to the fallback); `now` is the clock; `freshIds` is the uuid4
supply for new `Recipe` ids. -/

/-- Result of `QueryGenerator.generate`. -/
structure SearchQueries where
  directQueries : List String
  dishSuggestions : List String
deriving DecidableEq, Repr

/-- The oracle bundle for one `search_recipes` invocation. -/
structure PipelineEnv where
  queryGen : List String → SearchQueries
  creators : String → List PreferredCreator
  ytTask : List String → List String → Except String (List YouTubeSearchResult)
  igTask : List String → List String → Except String (List InstagramSearchResult)
  parse : String → String → Except String ParsedRecipeIngredients
  matchModel : List String → List String → Option RecipeMatchScore
  now : Int
  freshIds : Nat → String

/-- Python `caption[:100]`. -/
def pyTake100 (s : String) : String :=
  ⟨s.data.take 100⟩

/-- `_search_all_platforms` after `asyncio.gather(..., return_exceptions=True)`:
a task that raised contributes an empty result list, independently per
platform. -/
def searchAllPlatforms (ytOutcome : Except String (List YouTubeSearchResult))
    (igOutcome : Except String (List InstagramSearchResult)) :
    List YouTubeSearchResult × List InstagramSearchResult :=
  (match ytOutcome with | .ok l => l | .error _ => [],
   match igOutcome with | .ok l => l | .error _ => [])

/-- The `Recipe(...)` constructor call for a parsed YouTube result. -/
def mkYtRecipe (now : Int) (freshId : String) (r : YouTubeSearchResult)
    (ingredients : List String) : Recipe :=
  { id := freshId
    source := .youtube
    sourceId := r.videoId
    url := r.url
    thumbnailUrl := r.thumbnailUrl
    title := r.title
    creatorName := r.channelName
    creatorId := r.channelId
    extractedIngredients := ingredients
    rawDescription := r.description
    duration := r.duration
    postedAt := r.publishedAt
    cachedAt := now
    cacheExpiresAt := now + 30 * secondsPerDay }

/-- The `Recipe(...)` constructor call for a parsed Instagram result
(no duration; the first 100 caption characters become the title). -/
def mkIgRecipe (now : Int) (freshId : String) (r : InstagramSearchResult)
    (ingredients : List String) : Recipe :=
  { id := freshId
    source := .instagram
    sourceId := r.postId
    url := r.url
    thumbnailUrl := r.thumbnailUrl
    title := pyTake100 r.caption
    creatorName := r.accountUsername
    creatorId := r.accountId
    extractedIngredients := ingredients
    rawDescription := r.caption
    duration := none
    postedAt := r.postedAt
    cachedAt := now
    cacheExpiresAt := now + 30 * secondsPerDay }

/-- One YouTube iteration of `_convert_to_recipes`: cache hit reused as-is;
on a miss, parse, apply the `confidence < 0.5 or not ingredients` gate, and
on success cache the new recipe and append it.  A parse exception skips the
item. -/
def convertYTStep (parse : String → String → Except String ParsedRecipeIngredients)
    (now : Int) (freshIds : Nat → String)
    (acc : List Recipe × CacheState × Nat) (r : YouTubeSearchResult) :
    List Recipe × CacheState × Nat :=
  let lookup := cacheGetBySource acc.2.1 .youtube r.videoId now
  match lookup.1 with
  | some cached => (acc.1 ++ [cached], lookup.2, acc.2.2)
  | none =>
    match parse r.title r.description with
    | .error _ => (acc.1, lookup.2, acc.2.2)
    | .ok parsed =>
      if parsed.confidence < mkRat 1 2 ∨ parsed.ingredients = [] then
        (acc.1, lookup.2, acc.2.2)
      else
        let recipe := mkYtRecipe now (freshIds acc.2.2) r parsed.ingredients
        (acc.1 ++ [recipe], cachePut lookup.2 recipe now, acc.2.2 + 1)

/-- One Instagram iteration of `_convert_to_recipes` (the parser is called
with an empty title and the caption). -/
def convertIGStep (parse : String → String → Except String ParsedRecipeIngredients)
    (now : Int) (freshIds : Nat → String)
    (acc : List Recipe × CacheState × Nat) (r : InstagramSearchResult) :
    List Recipe × CacheState × Nat :=
  let lookup := cacheGetBySource acc.2.1 .instagram r.postId now
  match lookup.1 with
  | some cached => (acc.1 ++ [cached], lookup.2, acc.2.2)
  | none =>
    match parse "" r.caption with
    | .error _ => (acc.1, lookup.2, acc.2.2)
    | .ok parsed =>
      if parsed.confidence < mkRat 1 2 ∨ parsed.ingredients = [] then
        (acc.1, lookup.2, acc.2.2)
      else
        let recipe := mkIgRecipe now (freshIds acc.2.2) r parsed.ingredients
        (acc.1 ++ [recipe], cachePut lookup.2 recipe now, acc.2.2 + 1)

/-- `_convert_to_recipes`: all YouTube results, then all Instagram results,
threading the shared cache (and the uuid supply). -/
def convertToRecipes (parse : String → String → Except String ParsedRecipeIngredients)
    (now : Int) (freshIds : Nat → String)
    (ytResults : List YouTubeSearchResult) (igResults : List InstagramSearchResult)
    (st : CacheState) : List Recipe × CacheState × Nat :=
  igResults.foldl (convertIGStep parse now freshIds)
    (ytResults.foldl (convertYTStep parse now freshIds) ([], st, 0))

/-- `RecipeMatcher.score_batch`: one `score` task per `(recipe_id,
ingredients)` pair, reassembled as a dict keyed by recipe id (a duplicate id
keeps one entry, as in the Python dict comprehension). -/
def scoreBatch (matchModel : List String → List String → Option RecipeMatchScore)
    (userIngredients : List String) (recipeData : List (String × List String)) :
    List (String × RecipeMatchScore) :=
  recipeData.foldl
    (fun acc p => updEntry acc p.1 (matcherScore matchModel userIngredients p.2))
    []

/-- `_score_recipes`: batch-score all recipes, keep those whose score exists
with `coverage_score > 0.1`. -/
def scoreRecipes (matchModel : List String → List String → Option RecipeMatchScore)
    (userIngredients : List String) (recipes : List Recipe) : List ScoredRecipe :=
  let scores := scoreBatch matchModel userIngredients
    (recipes.map (fun r => (r.id, r.extractedIngredients)))
  recipes.foldl
    (fun scored r =>
      match lookupL scores r.id with
      | some score =>
        if mkRat 1 10 < score.coverageScore then
          scored ++ [{ recipe := r, score := score }]
        else scored
      | none => scored)
    []

/-- Stable insertion into a list sorted by `coverage_score` descending: the
element goes before the first entry whose score is ≤ its own.  Under the
`foldr` below, earlier input elements are inserted last, so they end up
before equal-scored later ones — the stable descending order. -/
def insertDesc (x : ScoredRecipe) : List ScoredRecipe → List ScoredRecipe
  | [] => [x]
  | y :: ys =>
    if y.score.coverageScore ≤ x.score.coverageScore then x :: y :: ys
    else y :: insertDesc x ys

/-- Python `scored_recipes.sort(key=lambda sr: sr.score.coverage_score,
reverse=True)`: a stable sort, descending by coverage score.  Stable sorts
are extensionally unique, so insertion sort is a faithful model of Timsort
here. -/
def sortByCoverageDesc (l : List ScoredRecipe) : List ScoredRecipe :=
  l.foldr insertDesc []

/-- `direct_queries + dish_suggestions` from step 1. -/
def allQueriesOf (queryGen : List String → SearchQueries)
    (ingredients : List String) : List String :=
  (queryGen ingredients).directQueries ++ (queryGen ingredients).dishSuggestions

/-- Preferred YouTube channel ids of a user (step 2). -/
def ytChannelsOf (creators : String → List PreferredCreator) (userId : String) :
    List String :=
  ((creators userId).filter (fun c => c.source = Source.youtube)).map (·.creatorId)

/-- Preferred Instagram accounts of a user (step 2). -/
def igAccountsOf (creators : String → List PreferredCreator) (userId : String) :
    List String :=
  ((creators userId).filter (fun c => c.source = Source.instagram)).map (·.creatorId)

/-- The platform results pair of step 3. -/
def platformResultsOf (env : PipelineEnv) (userId : String)
    (ingredients : List String) :
    List YouTubeSearchResult × List InstagramSearchResult :=
  searchAllPlatforms
    (env.ytTask (allQueriesOf env.queryGen ingredients) (ytChannelsOf env.creators userId))
    (env.igTask (allQueriesOf env.queryGen ingredients) (igAccountsOf env.creators userId))

/-- The converted recipe list, final cache state and uuid counter after
step 4. -/
def convertedOf (env : PipelineEnv) (st : CacheState) (userId : String)
    (ingredients : List String) : List Recipe × CacheState × Nat :=
  convertToRecipes env.parse env.now env.freshIds
    (platformResultsOf env userId ingredients).1
    (platformResultsOf env userId ingredients).2 st

/-- The pre-sort scored list of step 5. -/
def scoredPhase (env : PipelineEnv) (st : CacheState) (userId : String)
    (ingredients : List String) : List ScoredRecipe :=
  scoreRecipes env.matchModel ingredients (convertedOf env st userId ingredients).1

/-- `RecipeCollectionService.search_recipes`: the full pipeline.  Returns the
ranked scored recipes (or the terminal error) together with the final shared
cache state. -/
def searchRecipes (env : PipelineEnv) (st : CacheState) (userId : String)
    (ingredients : List String) (maxResults : Nat) :
    Except String (List ScoredRecipe) × CacheState :=
  if allQueriesOf env.queryGen ingredients = [] then (.ok [], st)
  else if (platformResultsOf env userId ingredients).1 = [] ∧
      (platformResultsOf env userId ingredients).2 = [] then
    (.error "No recipes found from any source", st)
  else if (convertedOf env st userId ingredients).1 = [] then
    (.ok [], (convertedOf env st userId ingredients).2.1)
  else
    (.ok ((sortByCoverageDesc (scoredPhase env st userId ingredients)).take maxResults),
     (convertedOf env st userId ingredients).2.1)

deriving instance DecidableEq for Except

/-- The per-recipe selection made inside `_score_recipes`, as an `Option`:
the recipe paired with its score when the score exists and clears the 0.1
filter. -/
def chooseScored (scores : List (String × RecipeMatchScore)) (r : Recipe) :
    Option ScoredRecipe :=
  match lookupL scores r.id with
  | some score =>
    if mkRat 1 10 < score.coverageScore then some { recipe := r, score := score }
    else none
  | none => none

/-- Concrete oracle bundle: one YouTube result, Instagram task raising, a
high-confidence parse, and a model score of 3/4. -/
def wEnv : PipelineEnv :=
  { queryGen := fun _ => { directQueries := ["chicken recipe"], dishSuggestions := [] }
    creators := fun _ => []
    ytTask := fun _ _ => .ok [wYtA1]
    igTask := fun _ _ => .error "rate limited"
    parse := fun _ _ => .ok { ingredients := ["egg", "rice"], confidence := mkRat 9 10 }
    matchModel := fun _ _ =>
      some { coverageScore := mkRat 3 4, missingIngredients := [], reasoning := "good" }
    now := 0
    freshIds := fun n => "uuid-" ++ toString n }

/-- The recipe `wEnv` produces from `wYtA1`. -/
def wRecipe1 : Recipe := mkYtRecipe 0 "uuid-0" wYtA1 ["egg", "rice"]

/-- The score `wEnv` assigns. -/
def wScore : RecipeMatchScore :=
  { coverageScore := mkRat 3 4, missingIngredients := [], reasoning := "good" }

/-- A platform task outcome that contributes nothing: it returned an empty
list, or it raised. -/
def emptyOutcome (o : Except String (List β)) : Prop :=
  match o with
  | .ok l => l = []
  | .error _ => True

/-- `wEnv` with the YouTube task also raising: both platforms fail. -/
def wEnvBoth : PipelineEnv :=
  { wEnv with ytTask := fun _ _ => .error "quota exceeded" }

/-- Raw Instagram result used as a dummy argument in witnesses. -/
def wIgA : InstagramSearchResult :=
  { postId := "p1", shortcode := "sc", caption := "pasta night", thumbnailUrl := ""
    accountUsername := "au", accountId := "aid", postedAt := 0 }

/-! ## Progress reporting and the SSE stream (`app/routers/recipes.py`)

`routers/recipes.py` imports `ProgressEvent` from the collection service and
passes an `on_progress` callback to `search_recipes`, but the service module
in the snapshot has neither; the progress-emitting variant of
`search_recipes` is therefore modelled from the spec below, while the queue
bridge and SSE generator are embedded from the router. -/

/-- `ProgressEvent` `{step, total_steps, phase, message}` (spec §3; consumed
by the router). -/
structure ProgressEvent where
  step : Nat
  totalSteps : Nat
  phase : String
  message : String
deriving DecidableEq, Repr

/-- The fixed total step count of the pipeline (six numbered phases). -/
def progressTotalSteps : Nat := 6

/-- Modelled from the spec: the `on_progress`-capable `search_recipes` is
missing from the snapshot (only its caller in `routers/recipes.py` exists).
Per spec §4.6, the orchestrator emits one ordered `ProgressEvent` per
numbered phase boundary reached, each with a monotonically increasing step
index and the fixed total step count, and emission does not change the
pipeline result. -/
def searchRecipesWithProgress (env : PipelineEnv) (st : CacheState)
    (userId : String) (ingredients : List String) (maxResults : Nat) :
    List ProgressEvent × (Except String (List ScoredRecipe) × CacheState) :=
  let e : Nat → String → String → ProgressEvent := fun i phase msg =>
    { step := i, totalSteps := progressTotalSteps, phase := phase, message := msg }
  let e1 := e 1 "queries" "Generating search queries"
  let e2 := e 2 "creators" "Loading preferred creators"
  let e3 := e 3 "search" "Searching platforms"
  let e4 := e 4 "convert" "Extracting ingredients"
  let e5 := e 5 "score" "Scoring recipes"
  let e6 := e 6 "rank" "Ranking results"
  if allQueriesOf env.queryGen ingredients = [] then
    ([e1], (.ok [], st))
  else if (platformResultsOf env userId ingredients).1 = [] ∧
      (platformResultsOf env userId ingredients).2 = [] then
    ([e1, e2, e3], (.error "No recipes found from any source", st))
  else if (convertedOf env st userId ingredients).1 = [] then
    ([e1, e2, e3, e4], (.ok [], (convertedOf env st userId ingredients).2.1))
  else
    ([e1, e2, e3, e4, e5, e6],
      (.ok ((sortByCoverageDesc (scoredPhase env st userId ingredients)).take maxResults),
        (convertedOf env st userId ingredients).2.1))

/-- One server-sent event of the streaming endpoint. -/
inductive SSEEvent
  | progress (e : ProgressEvent)
  | result (payload : List ScoredRecipe)
  | error (msg : String)
deriving DecidableEq, Repr

/-- Whether an event is terminal (`result` or `error`). -/
def SSEEvent.isTerminal : SSEEvent → Bool
  | .progress _ => false
  | .result _ => true
  | .error _ => true

/-- The event sequence of `stream_recipe_search`: `run_search` enqueues each
progress event in order while the pipeline runs, then exactly one `result`
(on success) or `error` (on exception), then the end-of-stream marker, and
`event_generator` drains the queue in order. -/
def streamEvents (events : List ProgressEvent)
    (outcome : Except String (List ScoredRecipe)) : List SSEEvent :=
  events.map SSEEvent.progress ++
    [match outcome with
     | .ok v => SSEEvent.result v
     | .error msg => SSEEvent.error msg]

/-- Source soundness of the cache: any recipe reachable through an index
entry carries exactly the key of that entry.  (A consequence of
`cacheConsistent`, but preserved on its own through the conversion loop.) -/
def cacheSourceSound (st : CacheState) : Prop :=
  ∀ s sid rid r, lookupL st.sourceIndex (s, sid) = some rid →
    lookupL st.recipes rid = some r → r.source = s ∧ r.sourceId = sid

/-- An id that no index entry points to (a uuid not yet used). -/
def idFreshFor (st : CacheState) (id2 : String) : Prop :=
  ∀ k rid, lookupL st.sourceIndex k = some rid → rid ≠ id2

/-- `wEnv` with an injective uuid supply (`"u"`, `"ux"`, `"uxx"`, ...). -/
def wEnvC10 : PipelineEnv :=
  { wEnv with freshIds := fun n => ⟨'u' :: List.replicate n 'x'⟩ }

/-- The recipe `wEnvC10` produces from `wYtA1`. -/
def wRecipeC10 : Recipe := mkYtRecipe 0 "u" wYtA1 ["egg", "rice"]

/-! # Theorems -/

@[simp] theorem lookupL_nil [DecidableEq κ] (k : κ) :
    lookupL ([] : List (κ × ν)) k = none := rfl

@[simp] theorem lookupL_cons [DecidableEq κ] (p : κ × ν) (l : List (κ × ν)) (k : κ) :
    lookupL (p :: l) k = if p.1 = k then some p.2 else lookupL l k := by
  by_cases h : p.1 = k <;> simp [lookupL, List.find?, h]

@[simp] theorem delKey_nil [DecidableEq κ] (k : κ) :
    delKey ([] : List (κ × ν)) k = [] := rfl

theorem lookupL_delKey [DecidableEq κ] (l : List (κ × ν)) (k k' : κ) :
    lookupL (delKey l k') k = if k = k' then none else lookupL l k := by
  induction l with
  | nil => simp
  | cons p t ih =>
    by_cases hp : p.1 = k' <;> by_cases hk : k = k' <;>
      by_cases hpk : p.1 = k <;>
      simp_all [delKey, List.filter_cons]

theorem lookupL_delKey_self [DecidableEq κ] (l : List (κ × ν)) (k : κ) :
    lookupL (delKey l k) k = none := by
  simp [lookupL_delKey]

theorem lookupL_delKey_ne [DecidableEq κ] (l : List (κ × ν)) {k k' : κ} (h : k ≠ k') :
    lookupL (delKey l k') k = lookupL l k := by
  simp [lookupL_delKey, h]

theorem lookupL_append [DecidableEq κ] (l₁ l₂ : List (κ × ν)) (k : κ) :
    lookupL (l₁ ++ l₂) k = (lookupL l₁ k).or (lookupL l₂ k) := by
  induction l₁ with
  | nil => simp
  | cons p t ih => by_cases hp : p.1 = k <;> simp [hp, ih]

theorem lookupL_eq_none_of_not_any [DecidableEq κ] {l : List (κ × ν)} {k : κ}
    (h : ¬ l.any (fun p => p.1 = k)) : lookupL l k = none := by
  induction l with
  | nil => rfl
  | cons p t ih =>
    have hp : ¬ p.1 = k := by
      intro hpk
      exact h (List.any_eq_true.mpr ⟨p, List.mem_cons_self p t, by simp [hpk]⟩)
    have ht : ¬ t.any (fun p => p.1 = k) := by
      intro hta
      rcases List.any_eq_true.mp hta with ⟨q, hq, hqk⟩
      exact h (List.any_eq_true.mpr ⟨q, List.mem_cons_of_mem p hq, hqk⟩)
    simp [hp, ih ht]

theorem lookupL_map_upd [DecidableEq κ] (l : List (κ × ν)) (k k' : κ) (v : ν) :
    lookupL (l.map (fun p => if p.1 = k' then (k', v) else p)) k =
      if k = k' then (if l.any (fun p => p.1 = k') then some v else none)
      else lookupL l k := by
  induction l with
  | nil => by_cases hk : k = k' <;> simp [hk]
  | cons p t ih =>
    by_cases hp : p.1 = k'
    · by_cases hk : k = k'
      · subst hk
        simp [hp, List.any_cons]
      · have hk2 : ¬ k' = k := fun h => hk h.symm
        have hpk : ¬ p.1 = k := by rw [hp]; exact hk2
        simp [hp, hk, hk2, hpk, ih]
    · by_cases hk : k = k'
      · subst hk
        simp only [List.map, hp, if_false, lookupL_cons, List.any_cons,
          decide_eq_false hp, Bool.false_or, if_pos rfl] at ih ⊢
        simpa [hp] using ih
      · by_cases hpk : p.1 = k
        · simp [hp, hpk, hk]
        · simp [hp, hpk, hk, ih]

theorem lookupL_updEntry [DecidableEq κ] (l : List (κ × ν)) (k k' : κ) (v : ν) :
    lookupL (updEntry l k' v) k = if k = k' then some v else lookupL l k := by
  unfold updEntry
  by_cases hany : l.any (fun p => p.1 = k')
  · rw [if_pos hany, lookupL_map_upd, if_pos hany]
  · rw [if_neg hany, lookupL_append]
    by_cases hk : k = k'
    · subst hk
      rw [lookupL_eq_none_of_not_any hany]
      simp
    · have hk2 : ¬ k' = k := fun h => hk h.symm
      rw [if_neg hk]
      have h1 : lookupL [(k', v)] k = none := by simp [hk2]
      rw [h1]
      cases lookupL l k <;> rfl

theorem lookupL_updEntry_self [DecidableEq κ] (l : List (κ × ν)) (k : κ) (v : ν) :
    lookupL (updEntry l k v) k = some v := by
  simp [lookupL_updEntry]

theorem lookupL_updEntry_ne [DecidableEq κ] (l : List (κ × ν)) {k k' : κ} (v : ν)
    (h : k ≠ k') : lookupL (updEntry l k' v) k = lookupL l k := by
  simp [lookupL_updEntry, h]

/-! ### Cache lemmas -/

theorem lookupL_cacheRemove_recipes (st : CacheState) (i rid : String) :
    lookupL (cacheRemove st i).recipes rid =
      if rid = i then none else lookupL st.recipes rid := by
  unfold cacheRemove
  cases h : lookupL st.recipes i with
  | none =>
    by_cases hri : rid = i
    · subst hri; simp [h]
    · simp [hri]
  | some r => simp [lookupL_delKey]

theorem lookupL_foldl_cacheRemove (ids : List String) (st : CacheState)
    (rid : String) :
    lookupL ((ids.foldl cacheRemove st).recipes) rid =
      if rid ∈ ids then none else lookupL st.recipes rid := by
  induction ids generalizing st with
  | nil => simp
  | cons i t ih =>
    rw [List.foldl_cons, ih]
    by_cases hrt : rid ∈ t
    · simp [hrt, List.mem_cons]
    · by_cases hri : rid = i
      · subst hri
        simp [hrt, lookupL_cacheRemove_recipes]
      · simp [hrt, hri, lookupL_cacheRemove_recipes, List.mem_cons]

theorem mem_of_lookupL [DecidableEq κ] {l : List (κ × ν)} {k : κ} {v : ν}
    (h : lookupL l k = some v) : (k, v) ∈ l := by
  induction l with
  | nil => simp [lookupL] at h
  | cons p t ih =>
    rw [lookupL_cons] at h
    by_cases hp : p.1 = k
    · rw [if_pos hp] at h
      have : p = (k, v) := by
        cases p with
        | mk a b =>
          simp only at hp
          simp only [Option.some.injEq] at h
          simp [hp, h]
      exact this ▸ List.mem_cons_self p t
    · rw [if_neg hp] at h
      exact List.mem_cons_of_mem p (ih h)

theorem lookupL_of_mem_nodup [DecidableEq κ] {l : List (κ × ν)} {k : κ} {v : ν}
    (hnd : (l.map Prod.fst).Nodup) (h : (k, v) ∈ l) : lookupL l k = some v := by
  induction l with
  | nil => simp at h
  | cons p t ih =>
    rcases List.mem_cons.mp h with h1 | h2
    · subst h1; simp
    · have hk : p.1 ≠ k := by
        intro hpk
        have : k ∈ t.map Prod.fst := List.mem_map_of_mem Prod.fst h2
        rw [List.map_cons, List.nodup_cons] at hnd
        exact hnd.1 (hpk ▸ this)
      rw [lookupL_cons, if_neg hk]
      exact ih (by rw [List.map_cons, List.nodup_cons] at hnd; exact hnd.2) h2

theorem mem_expiredIds_iff (st : CacheState) (now : Int) (rid : String)
    (hnd : (st.recipes.map Prod.fst).Nodup) :
    rid ∈ (st.recipes.filter (fun p => p.2.cacheExpiresAt ≤ now)).map (·.1) ↔
      ∃ r, lookupL st.recipes rid = some r ∧ r.cacheExpiresAt ≤ now := by
  constructor
  · intro h
    rcases List.mem_map.mp h with ⟨p, hp, hfst⟩
    have hmem : p ∈ st.recipes := List.mem_of_mem_filter hp
    have hexp : p.2.cacheExpiresAt ≤ now := by
      have := List.of_mem_filter hp
      simpa using this
    refine ⟨p.2, ?_, hexp⟩
    have hmem2 : (rid, p.2) ∈ st.recipes := by
      obtain ⟨a, b⟩ := p
      simp only at hfst hmem ⊢
      exact hfst ▸ hmem
    exact lookupL_of_mem_nodup hnd hmem2
  · rintro ⟨r, hl, hexp⟩
    have hmem : (rid, r) ∈ st.recipes := mem_of_lookupL hl
    have : (rid, r) ∈ st.recipes.filter (fun p => p.2.cacheExpiresAt ≤ now) :=
      List.mem_filter.mpr ⟨hmem, by simpa using hexp⟩
    exact List.mem_map.mpr ⟨(rid, r), this, rfl⟩

/-! ## C3: cache round trip, lazy expiry, cleanup count -/

/-- C3.  Cache round trip with lazy expiry: immediately after `put(r)` (for a
recipe that is not already expired, with the model-generated nonempty id),
`get_by_source(r.source, r.source_id)` returns a recipe with the same
`extracted_ingredients`, `title` and `id`; `get` and `get_by_source` return
nothing for an expired entry and evict it at read time; and
`cleanup_expired()` returns exactly the number of expired entries while
removing exactly those. -/
theorem cache_roundtrip_lazy_expiry_cleanup :
    (∀ (st : CacheState) (r : Recipe) (now : Int),
        0 < st.defaultTtlDays → r.id ≠ "" →
        (r.cacheExpiresAt ≤ r.cachedAt ∨ now < r.cacheExpiresAt) →
        ∃ r₂, (cacheGetBySource (cachePut st r now) r.source r.sourceId now).1 = some r₂ ∧
          r₂.extractedIngredients = r.extractedIngredients ∧
          r₂.title = r.title ∧ r₂.id = r.id) ∧
    (∀ (st : CacheState) (rid : String) (r : Recipe) (now : Int),
        lookupL st.recipes rid = some r → r.cacheExpiresAt ≤ now →
        (cacheGet st rid now).1 = none ∧
        lookupL (cacheGet st rid now).2.recipes rid = none) ∧
    (∀ (st : CacheState) (s : Source) (sid rid : String) (r : Recipe) (now : Int),
        lookupL st.sourceIndex (s, sid) = some rid → rid ≠ "" →
        lookupL st.recipes rid = some r → r.cacheExpiresAt ≤ now →
        (cacheGetBySource st s sid now).1 = none ∧
        lookupL (cacheGetBySource st s sid now).2.recipes rid = none) ∧
    (∀ (st : CacheState) (now : Int),
        (st.recipes.map Prod.fst).Nodup →
        (cacheCleanupExpired st now).1 =
          (st.recipes.filter (fun p => p.2.cacheExpiresAt ≤ now)).length ∧
        (∀ rid, lookupL (cacheCleanupExpired st now).2.recipes rid =
          match lookupL st.recipes rid with
          | some r => if r.cacheExpiresAt ≤ now then none else some r
          | none => none)) := by
  refine ⟨?_, ?_, ?_, ?_⟩
  · intro st r now httl hid hexp
    have hday : (0 : Int) < secondsPerDay := by norm_num [secondsPerDay]
    by_cases hle : r.cacheExpiresAt ≤ r.cachedAt
    · refine ⟨{ r with cacheExpiresAt := now + st.defaultTtlDays * secondsPerDay },
        ?_, rfl, rfl, rfl⟩
      have hput : cachePut st r now =
          { st with
            recipes := updEntry st.recipes r.id
              { r with cacheExpiresAt := now + st.defaultTtlDays * secondsPerDay }
            sourceIndex := updEntry st.sourceIndex (r.source, r.sourceId) r.id } := by
        simp only [cachePut, if_pos hle]
      have hfresh : now < now + st.defaultTtlDays * secondsPerDay := by
        have := mul_pos httl hday
        omega
      rw [hput]
      unfold cacheGetBySource
      simp only [lookupL_updEntry_self]
      rw [if_neg hid]
      unfold cacheGet
      simp only [lookupL_updEntry_self]
      rw [if_pos hfresh]
    · refine ⟨r, ?_, rfl, rfl, rfl⟩
      have hput : cachePut st r now =
          { st with
            recipes := updEntry st.recipes r.id r
            sourceIndex := updEntry st.sourceIndex (r.source, r.sourceId) r.id } := by
        simp only [cachePut, if_neg hle]
      have hfresh : now < r.cacheExpiresAt := hexp.resolve_left hle
      rw [hput]
      unfold cacheGetBySource
      simp only [lookupL_updEntry_self]
      rw [if_neg hid]
      unfold cacheGet
      simp only [lookupL_updEntry_self]
      rw [if_pos hfresh]
  · intro st rid r now hl hexp
    have hlt : ¬ now < r.cacheExpiresAt := by omega
    unfold cacheGet
    rw [hl]
    simp [hlt, lookupL_cacheRemove_recipes]
  · intro st s sid rid r now hidx hrid hl hexp
    have hlt : ¬ now < r.cacheExpiresAt := by omega
    unfold cacheGetBySource
    simp only [hidx]
    rw [if_neg hrid]
    unfold cacheGet
    rw [hl]
    simp [hlt, lookupL_cacheRemove_recipes]
  · intro st now hnd
    constructor
    · simp [cacheCleanupExpired]
    · intro rid
      have h2 : (cacheCleanupExpired st now).2 =
          ((st.recipes.filter (fun p => p.2.cacheExpiresAt ≤ now)).map (·.1)).foldl
            cacheRemove st := rfl
      rw [h2, lookupL_foldl_cacheRemove]
      by_cases hmem :
          rid ∈ (st.recipes.filter (fun p => p.2.cacheExpiresAt ≤ now)).map (·.1)
      · rcases (mem_expiredIds_iff st now rid hnd).mp hmem with ⟨r, hl, hexp⟩
        rw [if_pos hmem, hl]
        simp [hexp]
      · rw [if_neg hmem]
        cases hl : lookupL st.recipes rid with
        | none => rfl
        | some r =>
          by_cases hexp : r.cacheExpiresAt ≤ now
          · exact absurd ((mem_expiredIds_iff st now rid hnd).mpr ⟨r, hl, hexp⟩) hmem
          · simp [hexp]

/-- Witness for C3 at concrete inputs: a fresh put is readable back, an
expired entry reads as nothing and is evicted, and cleanup counts it. -/
theorem cache_roundtrip_lazy_expiry_cleanup_witness :
    (∃ r₂, (cacheGetBySource (cachePut emptyCache wFreshRecipe 0)
        Source.youtube "vid1" 0).1 = some r₂ ∧
      r₂.extractedIngredients = wFreshRecipe.extractedIngredients ∧
      r₂.title = wFreshRecipe.title ∧ r₂.id = wFreshRecipe.id) ∧
    ((cacheGet wOldState "rid-old" 10).1 = none ∧
      lookupL (cacheGet wOldState "rid-old" 10).2.recipes "rid-old" = none) ∧
    ((cacheGetBySource wOldState Source.youtube "vid2" 10).1 = none ∧
      lookupL (cacheGetBySource wOldState Source.youtube "vid2" 10).2.recipes
        "rid-old" = none) ∧
    ((cacheCleanupExpired wOldState 10).1 =
        (wOldState.recipes.filter (fun p => p.2.cacheExpiresAt ≤ 10)).length ∧
      lookupL (cacheCleanupExpired wOldState 10).2.recipes "rid-old" =
        match lookupL wOldState.recipes "rid-old" with
        | some r => if r.cacheExpiresAt ≤ 10 then none else some r
        | none => none) := by
  refine ⟨?_, ?_, ?_, ?_⟩
  · exact cache_roundtrip_lazy_expiry_cleanup.1 emptyCache wFreshRecipe 0
      (by decide) (by decide) (by right; decide)
  · exact cache_roundtrip_lazy_expiry_cleanup.2.1 wOldState "rid-old" wOldRecipe 10
      (by decide) (by decide)
  · exact cache_roundtrip_lazy_expiry_cleanup.2.2.1 wOldState Source.youtube "vid2"
      "rid-old" wOldRecipe 10 (by decide) (by decide) (by decide) (by decide)
  · have h := cache_roundtrip_lazy_expiry_cleanup.2.2.2 wOldState 10 (by decide)
    exact ⟨h.1, h.2 "rid-old"⟩

/-! ## C4: cache consistency invariant -/

theorem cacheConsistent_store (keyFn : String → Source × String)
    (st : CacheState) (s2 : Recipe) (h : cacheConsistent keyFn st)
    (hkey : (s2.source, s2.sourceId) = keyFn s2.id) :
    cacheConsistent keyFn
      { st with
        recipes := updEntry st.recipes s2.id s2
        sourceIndex := updEntry st.sourceIndex (s2.source, s2.sourceId) s2.id } := by
  constructor
  · intro rid r hlook
    dsimp only at hlook
    rw [lookupL_updEntry] at hlook
    by_cases hr : rid = s2.id
    · rw [if_pos hr] at hlook
      have hrs : s2 = r := by injection hlook
      subst hrs
      exact ⟨hr, hr ▸ hkey⟩
    · rw [if_neg hr] at hlook
      exact h.1 rid r hlook
  · intro k rid hlook
    dsimp only at hlook ⊢
    rw [lookupL_updEntry] at hlook
    by_cases hk : k = (s2.source, s2.sourceId)
    · rw [if_pos hk] at hlook
      have hrid : s2.id = rid := by injection hlook
      subst hrid
      refine ⟨by rw [hk, ← hkey], s2, ?_, hk ▸ rfl⟩
      rw [lookupL_updEntry_self]
    · rw [if_neg hk] at hlook
      obtain ⟨hkf, r, hrec, hrkey⟩ := h.2 k rid hlook
      have hne : rid ≠ s2.id := by
        intro heq
        apply hk
        rw [← hkf, heq, ← hkey]
      refine ⟨hkf, r, ?_, hrkey⟩
      rw [lookupL_updEntry_ne _ _ hne]
      exact hrec

theorem cacheConsistent_put (keyFn : String → Source × String)
    (st : CacheState) (r : Recipe) (now : Int) (h : cacheConsistent keyFn st)
    (hkey : (r.source, r.sourceId) = keyFn r.id) :
    cacheConsistent keyFn (cachePut st r now) := by
  unfold cachePut
  by_cases hle : r.cacheExpiresAt ≤ r.cachedAt
  · simp only [if_pos hle]
    exact cacheConsistent_store keyFn st
      { r with cacheExpiresAt := now + st.defaultTtlDays * secondsPerDay } h hkey
  · simp only [if_neg hle]
    exact cacheConsistent_store keyFn st r h hkey

theorem cacheConsistent_remove (keyFn : String → Source × String)
    (st : CacheState) (rid : String) (h : cacheConsistent keyFn st) :
    cacheConsistent keyFn (cacheRemove st rid) := by
  unfold cacheRemove
  cases hrec : lookupL st.recipes rid with
  | none => exact h
  | some r =>
    constructor
    · intro rid2 r2 hlook
      dsimp only at hlook
      rw [lookupL_delKey] at hlook
      by_cases h2 : rid2 = rid
      · rw [if_pos h2] at hlook; cases hlook
      · rw [if_neg h2] at hlook
        exact h.1 rid2 r2 hlook
    · intro k rid2 hlook
      dsimp only at hlook ⊢
      rw [lookupL_delKey] at hlook
      by_cases hk : k = (r.source, r.sourceId)
      · rw [if_pos hk] at hlook; cases hlook
      · rw [if_neg hk] at hlook
        obtain ⟨hkf, r2, hrec2, hrkey⟩ := h.2 k rid2 hlook
        have hne : rid2 ≠ rid := by
          intro heq
          subst heq
          rw [hrec] at hrec2
          have : r = r2 := by injection hrec2
          subst this
          exact hk hrkey.symm
        refine ⟨hkf, r2, ?_, hrkey⟩
        rw [lookupL_delKey, if_neg hne]
        exact hrec2

theorem cacheConsistent_foldl_remove (keyFn : String → Source × String)
    (ids : List String) (st : CacheState) (h : cacheConsistent keyFn st) :
    cacheConsistent keyFn (ids.foldl cacheRemove st) := by
  induction ids generalizing st with
  | nil => exact h
  | cons i t ih =>
    rw [List.foldl_cons]
    exact ih _ (cacheConsistent_remove keyFn st i h)

theorem cacheConsistent_applyOp (keyFn : String → Source × String)
    (st : CacheState) (op : CacheOp) (h : cacheConsistent keyFn st)
    (hput : ∀ r now, op = CacheOp.putOp r now → (r.source, r.sourceId) = keyFn r.id) :
    cacheConsistent keyFn (applyOp st op) := by
  cases op with
  | putOp r now =>
    exact cacheConsistent_put keyFn st r now h (hput r now rfl)
  | getOp rid now =>
    show cacheConsistent keyFn (cacheGet st rid now).2
    unfold cacheGet
    cases hrec : lookupL st.recipes rid with
    | none => exact h
    | some r =>
      simp only [hrec]
      by_cases hexp : now < r.cacheExpiresAt
      · simp only [if_pos hexp]
        exact h
      · simp only [if_neg hexp]
        exact cacheConsistent_remove keyFn st rid h
  | getBySourceOp s sid now =>
    show cacheConsistent keyFn (cacheGetBySource st s sid now).2
    unfold cacheGetBySource
    cases hidx : lookupL st.sourceIndex (s, sid) with
    | none => exact h
    | some rid =>
      simp only [hidx]
      by_cases hrid : rid = ""
      · simp only [if_pos hrid]
        exact h
      · simp only [if_neg hrid]
        unfold cacheGet
        cases hrec : lookupL st.recipes rid with
        | none => simp only [hrec]; exact h
        | some r =>
          simp only [hrec]
          by_cases hexp : now < r.cacheExpiresAt
          · simp only [if_pos hexp]
            exact h
          · simp only [if_neg hexp]
            exact cacheConsistent_remove keyFn st rid h
  | cleanupOp now =>
    show cacheConsistent keyFn
      (((st.recipes.filter (fun p => p.2.cacheExpiresAt ≤ now)).map (·.1)).foldl
        cacheRemove st)
    exact cacheConsistent_foldl_remove keyFn _ st h

theorem cacheConsistent_runOps (keyFn : String → Source × String)
    (ops : List CacheOp)
    (hops : ∀ r now, CacheOp.putOp r now ∈ ops → (r.source, r.sourceId) = keyFn r.id) :
    cacheConsistent keyFn (runOps ops) := by
  have hbase : cacheConsistent keyFn emptyCache := by
    constructor
    · intro rid r hlook; cases hlook
    · intro k rid hlook; cases hlook
  unfold runOps
  revert hbase
  generalize emptyCache = st
  induction ops generalizing st with
  | nil => intro h; exact h
  | cons op t ih =>
    intro h
    rw [List.foldl_cons]
    refine ih (fun r now hmem => hops r now (List.mem_cons_of_mem op hmem)) _
      (cacheConsistent_applyOp keyFn st op h ?_)
    intro r now hop
    exact hops r now (hop ▸ List.mem_cons_self op t)

/-- Counterexample to C4 as stated: from an empty cache, `put` of two distinct
recipes that share `(source, source_id)` but have distinct ids leaves both
retrievable — the first via `get` by id, the second via `get_by_source` — so
`(source, source_id)` does not uniquely identify a retrievable Recipe. -/
theorem cache_uniqueness_counterexample :
    (cacheGet (runOps opsC4) "a" 10).1 = some cRecipeA ∧
    (cacheGetBySource (runOps opsC4) Source.youtube "x" 10).1 = some cRecipeB ∧
    cRecipeA ≠ cRecipeB ∧
    cRecipeA.source = cRecipeB.source ∧ cRecipeA.sourceId = cRecipeB.sourceId := by
  refine ⟨by decide, by decide, by decide, rfl, rfl⟩

/-- C4 (amended).  For any operation sequence from an empty cache in which the
put recipes' ids determine their `(source, source_id)` (as uuid4-generated ids
do), (a) every secondary-index entry points to an existing recipe in the
primary store carrying exactly the index key, and (b) any recipe returned by
`get_by_source(s, sid)` carries exactly `(s, sid)` — so at most one recipe per
`(source, source_id)` is reachable through the index.  (Stale recipes sharing
the key remain reachable via `get` by id, which is what the counterexample
exhibits against the unamended claim.) -/
theorem cache_index_consistency :
    ∀ (ops : List CacheOp) (keyFn : String → Source × String),
      (∀ r now, CacheOp.putOp r now ∈ ops → (r.source, r.sourceId) = keyFn r.id) →
      (∀ k rid, lookupL (runOps ops).sourceIndex k = some rid →
        ∃ r, lookupL (runOps ops).recipes rid = some r ∧
          r.source = k.1 ∧ r.sourceId = k.2) ∧
      (∀ (s : Source) (sid : String) (now : Int) (r : Recipe),
        (cacheGetBySource (runOps ops) s sid now).1 = some r →
        r.source = s ∧ r.sourceId = sid) := by
  intro ops keyFn hops
  have h := cacheConsistent_runOps keyFn ops hops
  constructor
  · intro k rid hlook
    obtain ⟨hkf, r, hrec, hrkey⟩ := h.2 k rid hlook
    exact ⟨r, hrec, by rw [← hrkey], by rw [← hrkey]⟩
  · intro s sid now r hget
    unfold cacheGetBySource at hget
    cases hidx : lookupL (runOps ops).sourceIndex (s, sid) with
    | none => rw [hidx] at hget; cases hget
    | some rid =>
      simp only [hidx] at hget
      by_cases hrid : rid = ""
      · rw [if_pos hrid] at hget; cases hget
      · rw [if_neg hrid] at hget
        unfold cacheGet at hget
        cases hrec : lookupL (runOps ops).recipes rid with
        | none => simp only [hrec] at hget; cases hget
        | some r2 =>
          simp only [hrec] at hget
          by_cases hexp : now < r2.cacheExpiresAt
          · rw [if_pos hexp] at hget
            have hr2 : r2 = r := by injection hget
            subst hr2
            obtain ⟨hkf, r3, hrec3, hrkey3⟩ := h.2 (s, sid) rid hidx
            rw [hrec] at hrec3
            have hr3 : r2 = r3 := by injection hrec3
            subst hr3
            exact ⟨congrArg Prod.fst hrkey3, congrArg Prod.snd hrkey3⟩
          · rw [if_neg hexp] at hget; cases hget

/-- Witness for the amended C4 at a concrete key-coherent sequence. -/
theorem cache_index_consistency_witness :
    (∃ r, lookupL (runOps opsW4).recipes "a" = some r ∧
      r.source = Source.youtube ∧ r.sourceId = "x") ∧
    (cRecipeA.source = Source.youtube ∧ cRecipeA.sourceId = "x") := by
  have hops : ∀ (r : Recipe) (now : Int), CacheOp.putOp r now ∈ opsW4 →
      (r.source, r.sourceId) = keyFnW r.id := by
    intro r now hmem
    rw [opsW4, List.mem_singleton] at hmem
    injection hmem with h1 h2
    subst h1
    decide
  have h := cache_index_consistency opsW4 keyFnW hops
  refine ⟨?_, ?_⟩
  · have := h.1 (Source.youtube, "x") "a" (by decide)
    simpa using this
  · exact h.2 Source.youtube "x" 10 cRecipeA (by decide)

/-! ## C5: the deterministic fallback scorer -/

theorem foldl_match_split (pred : String → Bool) (l : List String)
    (acc : Nat × List String) :
    l.foldl
      (fun acc i => if pred i then (acc.1 + 1, acc.2) else (acc.1, acc.2 ++ [i]))
      acc =
      (acc.1 + l.countP pred, acc.2 ++ l.filter (fun i => ¬ pred i)) := by
  induction l generalizing acc with
  | nil => simp
  | cons i t ih =>
    rw [List.foldl_cons]
    by_cases hp : pred i
    · rw [if_pos hp, ih]
      refine Prod.ext ?_ ?_
      · simp [List.countP_cons, hp]
        omega
      · simp [List.filter_cons, hp]
    · rw [if_neg hp, ih]
      refine Prod.ext ?_ ?_
      · simp [List.countP_cons, hp]
      · simp [List.filter_cons, hp]

/-- Counterexample to C5 as stated: the fallback strips whitespace before
matching, so for `user = ["rice "]`, `recipe = ["ricex"]` the stripped user
ingredient "rice" matches and nothing is missing, while the claim's
unstripped two-way substring test matches nothing and predicts
`missing = ["ricex"]` (and the missing entries are not returned verbatim in
general). -/
theorem fallback_strip_counterexample :
    (fallbackScore ["rice "] ["ricex"]).missingIngredients = [] ∧
    (fallbackScore ["rice "] ["ricex"]).coverageScore = 1 ∧
    claimFallbackMissing ["rice "] ["ricex"] = ["ricex"] ∧
    (fallbackScore ["rice "] ["ricex"]).missingIngredients ≠
      claimFallbackMissing ["rice "] ["ricex"] := by
  refine ⟨by decide, by decide, by decide, by decide⟩

/-- C5 (amended).  For a non-empty recipe ingredient list, the fallback
counts a recipe ingredient as "have" iff some lowercased-and-stripped user
ingredient is a substring of the stripped, lowercased recipe ingredient or
vice versa; `coverage_score` is `matched / total` rounded to two decimals,
and `missing_ingredients` lists the unmatched recipe ingredients after
whitespace stripping (otherwise verbatim, in recipe order).  The claim's
concrete instance holds: `user = ["chicken breast"]`,
`recipe = ["chicken", "rice"]` gives coverage 0.5 and missing `["rice"]`. -/
theorem fallback_substring_match (user recipe : List String) (h : recipe ≠ []) :
    (fallbackScore user recipe).coverageScore =
      roundFrac2 ((recipe.map (fun ing => pyStrip ing)).countP (fallbackHas user))
        recipe.length ∧
    (fallbackScore user recipe).missingIngredients =
      (recipe.map (fun ing => pyStrip ing)).filter (fun i => ¬ fallbackHas user i) ∧
    (fallbackScore ["chicken breast"] ["chicken", "rice"]).coverageScore = 1/2 ∧
    (fallbackScore ["chicken breast"] ["chicken", "rice"]).missingIngredients =
      ["rice"] := by
  have hstep :
      (recipe.map (fun ing => pyStrip ing)).foldl
        (fun (acc : Nat × List String) recipeIng =>
          let recipeIngLower := pyLower recipeIng
          let hasIngredient := (user.map (fun ing => pyStrip (pyLower ing))).any
            (fun userIng =>
              strIn userIng recipeIngLower || strIn recipeIngLower userIng)
          if hasIngredient then (acc.1 + 1, acc.2)
          else (acc.1, acc.2 ++ [recipeIng]))
        (0, []) =
      ((recipe.map (fun ing => pyStrip ing)).countP (fallbackHas user),
        (recipe.map (fun ing => pyStrip ing)).filter (fun i => ¬ fallbackHas user i)) := by
    have := foldl_match_split (fallbackHas user) (recipe.map (fun ing => pyStrip ing))
      (0, [])
    simpa [fallbackHas] using this
  have hhalf : (fallbackScore ["chicken breast"] ["chicken", "rice"]).coverageScore
      = 1/2 := by
    have hc : (fallbackScore ["chicken breast"] ["chicken", "rice"]).coverageScore
        = mkRat 50 100 := by decide
    rw [hc, Rat.mkRat_eq_divInt, Rat.divInt_eq_div]
    norm_num
  refine ⟨?_, ?_, hhalf, by decide⟩
  · unfold fallbackScore
    rw [if_neg h]
    dsimp only
    rw [hstep]
    simp [List.length_map]
  · unfold fallbackScore
    rw [if_neg h]
    dsimp only
    rw [hstep]

/-- Witness for C5 (amended) at the claim's own concrete input. -/
theorem fallback_substring_match_witness :
    (fallbackScore ["chicken breast"] ["chicken", "rice"]).coverageScore =
      roundFrac2 (((["chicken", "rice"] : List String).map
          (fun ing => pyStrip ing)).countP (fallbackHas ["chicken breast"])) 2 ∧
    (fallbackScore ["chicken breast"] ["chicken", "rice"]).missingIngredients =
      ((["chicken", "rice"] : List String).map (fun ing => pyStrip ing)).filter
        (fun i => ¬ fallbackHas ["chicken breast"] i) ∧
    (fallbackScore ["chicken breast"] ["chicken", "rice"]).coverageScore = 1/2 ∧
    (fallbackScore ["chicken breast"] ["chicken", "rice"]).missingIngredients =
      ["rice"] := by
  exact fallback_substring_match ["chicken breast"] ["chicken", "rice"]
    (by decide)

/-! ## C9: per-platform deduplication and cap -/

theorem dedupByKeyAux_sublist (key : α → String) (seen : List String) :
    ∀ l : List α, (dedupByKeyAux key seen l).Sublist l := by
  intro l
  induction l generalizing seen with
  | nil => exact List.Sublist.refl []
  | cons x xs ih =>
    unfold dedupByKeyAux
    by_cases hx : key x ∈ seen
    · rw [if_pos hx]
      exact (ih seen).cons x
    · rw [if_neg hx]
      exact (ih (key x :: seen)).cons₂ x

theorem key_not_mem_seen_of_mem_dedupByKeyAux (key : α → String)
    (seen : List String) (l : List α) :
    ∀ x ∈ dedupByKeyAux key seen l, key x ∉ seen := by
  induction l generalizing seen with
  | nil => intro x hx; cases hx
  | cons y ys ih =>
    intro x hx
    unfold dedupByKeyAux at hx
    by_cases hy : key y ∈ seen
    · rw [if_pos hy] at hx
      exact ih seen x hx
    · rw [if_neg hy] at hx
      rcases List.mem_cons.mp hx with h1 | h2
      · subst h1; exact hy
      · intro hmem
        exact ih (key y :: seen) x h2 (List.mem_cons_of_mem _ hmem)

theorem nodup_map_key_dedupByKeyAux (key : α → String) (seen : List String)
    (l : List α) : ((dedupByKeyAux key seen l).map key).Nodup := by
  induction l generalizing seen with
  | nil => exact List.nodup_nil
  | cons y ys ih =>
    unfold dedupByKeyAux
    by_cases hy : key y ∈ seen
    · rw [if_pos hy]; exact ih seen
    · rw [if_neg hy]
      rw [List.map_cons, List.nodup_cons]
      refine ⟨?_, ih (key y :: seen)⟩
      intro hmem
      rcases List.mem_map.mp hmem with ⟨x, hx, hkx⟩
      exact key_not_mem_seen_of_mem_dedupByKeyAux key _ ys x hx
        (hkx ▸ List.mem_cons_self _ _)

theorem find?_eq_of_mem_dedupByKeyAux (key : α → String) (seen : List String)
    (l : List α) :
    ∀ x ∈ dedupByKeyAux key seen l,
      l.find? (fun y => key y = key x) = some x := by
  induction l generalizing seen with
  | nil => intro x hx; cases hx
  | cons y ys ih =>
    intro x hx
    unfold dedupByKeyAux at hx
    by_cases hy : key y ∈ seen
    · rw [if_pos hy] at hx
      have hne : key y ≠ key x := by
        intro heq
        exact key_not_mem_seen_of_mem_dedupByKeyAux key seen ys x hx (heq ▸ hy)
      rw [List.find?_cons_of_neg _ (by simpa using hne)]
      exact ih seen x hx
    · rw [if_neg hy] at hx
      rcases List.mem_cons.mp hx with h1 | h2
      · subst h1
        exact List.find?_cons_of_pos _ (by simp)
      · have hne : key y ≠ key x := by
          intro heq
          exact key_not_mem_seen_of_mem_dedupByKeyAux key _ ys x h2
            (heq ▸ List.mem_cons_self _ _)
        rw [List.find?_cons_of_neg _ (by simpa using hne)]
        exact ih (key y :: seen) x h2

theorem key_covered_dedupByKeyAux (key : α → String) (seen : List String)
    (l : List α) :
    ∀ x ∈ l, key x ∈ seen ∨ ∃ y ∈ dedupByKeyAux key seen l, key y = key x := by
  induction l generalizing seen with
  | nil => intro x hx; cases hx
  | cons z zs ih =>
    intro x hx
    unfold dedupByKeyAux
    by_cases hz : key z ∈ seen
    · rw [if_pos hz]
      rcases List.mem_cons.mp hx with h1 | h2
      · subst h1; exact Or.inl hz
      · exact ih seen x h2
    · rw [if_neg hz]
      rcases List.mem_cons.mp hx with h1 | h2
      · subst h1
        exact Or.inr ⟨x, List.mem_cons_self _ _, rfl⟩
      · rcases ih (key z :: seen) x h2 with hs | ⟨y, hy, hky⟩
        · rcases List.mem_cons.mp hs with h3 | h4
          · exact Or.inr ⟨z, List.mem_cons_self _ _, h3.symm⟩
          · exact Or.inl h4
        · exact Or.inr ⟨y, List.mem_cons_of_mem _ hy, hky⟩

/-- C9.  Applied to any accumulated raw result list, the platform tasks'
final step keeps at most one item per native content id and that item is the
first-seen one for its id, preserves first-seen order (the output is an
order-preserving sublist of the input), returns at most 40 items, and — when
the deduplicated list fits under the 40 cap — keeps exactly one item per
native id of the input.  `_search_youtube` and `_search_instagram` both end
with exactly this `platformDedupCap` step. -/
theorem platform_dedup_cap_spec (key : α → String) (l : List α) :
    (platformDedupCap key l).Sublist l ∧
    ((platformDedupCap key l).map key).Nodup ∧
    (∀ x ∈ platformDedupCap key l, l.find? (fun y => key y = key x) = some x) ∧
    (platformDedupCap key l).length ≤ 40 ∧
    ((dedupByKey key l).length ≤ 40 →
      ∀ x ∈ l, ∃ y ∈ platformDedupCap key l, key y = key x) := by
  refine ⟨?_, ?_, ?_, ?_, ?_⟩
  · exact (List.take_sublist _ _).trans (dedupByKeyAux_sublist key [] l)
  · have : (platformDedupCap key l).map key =
        ((dedupByKey key l).map key).take 40 := by
      simp [platformDedupCap, List.map_take]
    rw [this]
    exact (nodup_map_key_dedupByKeyAux key [] l).sublist (List.take_sublist _ _)
  · intro x hx
    exact find?_eq_of_mem_dedupByKeyAux key [] l x
      ((List.take_sublist _ _).mem hx)
  · simp [platformDedupCap]

  · intro hlen x hx
    rcases key_covered_dedupByKeyAux key [] l x hx with hs | ⟨y, hy, hky⟩
    · cases hs
    · refine ⟨y, ?_, hky⟩
      unfold platformDedupCap
      rw [List.take_of_length_le hlen]
      exact hy

/-- Witness for C9: two raw YouTube results share id "a" with different
titles; one retained item, first-seen wins, order kept, length under cap. -/
theorem platform_dedup_cap_spec_witness :
    (platformDedupCap (·.videoId) [wYtA1, wYtA2, wYtB]).Sublist
        [wYtA1, wYtA2, wYtB] ∧
    ((platformDedupCap (·.videoId) [wYtA1, wYtA2, wYtB]).map (·.videoId)).Nodup ∧
    ([wYtA1, wYtA2, wYtB].find?
        (fun y => y.videoId = wYtA1.videoId) = some wYtA1) ∧
    (platformDedupCap (·.videoId) [wYtA1, wYtA2, wYtB]).length ≤ 40 ∧
    (∃ y ∈ platformDedupCap (·.videoId) [wYtA1, wYtA2, wYtB],
      y.videoId = wYtA2.videoId) := by
  have h := platform_dedup_cap_spec (·.videoId) [wYtA1, wYtA2, wYtB]
  refine ⟨h.1, h.2.1, ?_, h.2.2.2.1, ?_⟩
  · exact h.2.2.1 wYtA1 (by decide)
  · exact h.2.2.2.2 (by decide) wYtA2 (by decide)

/-! ## C8: 404 handling and the typed error taxonomy -/

/-- Counterexample to C8 as stated: the account-scoped Instagram search
(`_search_by_account`) answered with HTTP 404 raises
`InstagramAPIError("Account '...' not found", 404)` — it does not return an
empty list — and the channel-filtered YouTube search maps 404 to the generic
HTTP error, also raising.  (Its own test
`test_search_posts_account_not_found` asserts the raise.) -/
theorem notfound_account_counterexample :
    igSearchByAccount (.statusError 404 "") "nonexistent" =
      .error { message := "Account " ++ sq ++ "nonexistent" ++ sq ++ " not found"
               statusCode := some 404 } ∧
    ytSearchVideos (.statusError 404 "oops") =
      .error { message := "HTTP 404: oops", statusCode := some 404 } := by
  exact ⟨rfl, rfl⟩

/-- C8 (amended).  404 on the item-detail lookup `get_post_details` returns
`None` rather than raising; 404 on the account-scoped search raises a typed
`InstagramAPIError` with status 404; on every call, 429 maps to the typed
rate-limit error, 403 to the typed unauthorized/quota error, any other
HTTP status to the generic `HTTP «code»: «text»` transport error, and a
network failure to the generic `Request failed` transport error. -/
theorem client_error_mapping :
    (∀ text, igGetPostDetails (.statusError 404 text) = .ok none) ∧
    (∀ text username, igSearchByAccount (.statusError 404 text) username =
      .error { message := "Account " ++ sq ++ username ++ sq ++ " not found"
               statusCode := some 404 }) ∧
    (∀ text username,
      igSearchByAccount (.statusError 429 text) username =
        .error { message := "Rate limit exceeded", statusCode := some 429 } ∧
      igSearchByHashtag (.statusError 429 text) =
        .error { message := "Rate limit exceeded", statusCode := some 429 } ∧
      igGetPostDetails (.statusError 429 text) =
        .error { message := "Rate limit exceeded", statusCode := some 429 } ∧
      ytSearchVideos (.statusError 429 text) =
        .error { message := "Rate limit exceeded", statusCode := some 429 }) ∧
    (∀ text username,
      igSearchByAccount (.statusError 403 text) username =
        .error { message := "API key invalid or quota exceeded", statusCode := some 403 } ∧
      igSearchByHashtag (.statusError 403 text) =
        .error { message := "API key invalid or quota exceeded", statusCode := some 403 } ∧
      igGetPostDetails (.statusError 403 text) =
        .error { message := "API key invalid or quota exceeded", statusCode := some 403 } ∧
      ytSearchVideos (.statusError 403 text) =
        .error { message := "API key invalid or quota exceeded", statusCode := some 403 }) ∧
    (∀ code text username, code ≠ 429 → code ≠ 403 → code ≠ 404 →
      igSearchByAccount (.statusError code text) username =
        .error { message := "HTTP " ++ toString code ++ ": " ++ text
                 statusCode := some code } ∧
      igGetPostDetails (.statusError code text) =
        .error { message := "HTTP " ++ toString code ++ ": " ++ text
                 statusCode := some code }) ∧
    (∀ code text, code ≠ 429 → code ≠ 403 →
      igSearchByHashtag (.statusError code text) =
        .error { message := "HTTP " ++ toString code ++ ": " ++ text
                 statusCode := some code } ∧
      ytSearchVideos (.statusError code text) =
        .error { message := "HTTP " ++ toString code ++ ": " ++ text
                 statusCode := some code }) ∧
    (∀ msg username,
      igSearchByAccount (.requestError msg) username =
        .error { message := "Request failed: " ++ msg, statusCode := none } ∧
      igSearchByHashtag (.requestError msg) =
        .error { message := "Request failed: " ++ msg, statusCode := none } ∧
      igGetPostDetails (.requestError msg) =
        .error { message := "Request failed: " ++ msg, statusCode := none } ∧
      ytSearchVideos (.requestError msg) =
        .error { message := "Request failed: " ++ msg, statusCode := none }) := by
  refine ⟨fun text => rfl, fun text username => rfl,
    fun text username => ⟨rfl, rfl, rfl, rfl⟩,
    fun text username => ⟨rfl, rfl, rfl, rfl⟩,
    ?_, ?_, fun msg username => ⟨rfl, rfl, rfl, rfl⟩⟩
  · intro code text username h429 h403 h404
    constructor
    · simp only [igSearchByAccount]
      rw [if_neg h429, if_neg h403, if_neg h404]
    · simp only [igGetPostDetails]
      rw [if_neg h429, if_neg h403, if_neg h404]
  · intro code text h429 h403
    constructor
    · simp only [igSearchByHashtag]
      rw [if_neg h429, if_neg h403]
    · simp only [ytSearchVideos]
      rw [if_neg h429, if_neg h403]

/-- Witness for C8 (amended) at status 500 and concrete strings. -/
theorem client_error_mapping_witness :
    igGetPostDetails (.statusError 404 "gone") = .ok none ∧
    igSearchByAccount (.statusError 500 "boom") "user1" =
      .error { message := "HTTP 500: boom", statusCode := some 500 } ∧
    ytSearchVideos (.statusError 500 "boom") =
      .error { message := "HTTP 500: boom", statusCode := some 500 } := by
  refine ⟨client_error_mapping.1 "gone", ?_, ?_⟩
  · exact (client_error_mapping.2.2.2.2.1 500 "boom" "user1" (by decide) (by decide)
      (by decide)).1
  · exact (client_error_mapping.2.2.2.2.2.1 500 "boom" (by decide) (by decide)).2

/-! ## Sorting lemmas: stable descending insertion sort -/

theorem mem_insertDesc (x z : ScoredRecipe) (l : List ScoredRecipe) :
    z ∈ insertDesc x l ↔ z = x ∨ z ∈ l := by
  induction l with
  | nil => simp [insertDesc]
  | cons y ys ih =>
    unfold insertDesc
    by_cases hc : y.score.coverageScore ≤ x.score.coverageScore
    · rw [if_pos hc]
      simp [List.mem_cons]
    · rw [if_neg hc]
      simp only [List.mem_cons, ih]
      tauto

theorem insertDesc_perm (x : ScoredRecipe) (l : List ScoredRecipe) :
    List.Perm (insertDesc x l) (x :: l) := by
  induction l with
  | nil => exact List.Perm.refl _
  | cons y ys ih =>
    unfold insertDesc
    by_cases hc : y.score.coverageScore ≤ x.score.coverageScore
    · rw [if_pos hc]
    · rw [if_neg hc]
      exact ((ih.cons y).trans (List.Perm.swap x y ys))

theorem pairwise_insertDesc (x : ScoredRecipe) (l : List ScoredRecipe)
    (h : l.Pairwise (fun a b => b.score.coverageScore ≤ a.score.coverageScore)) :
    (insertDesc x l).Pairwise
      (fun a b => b.score.coverageScore ≤ a.score.coverageScore) := by
  induction l with
  | nil => simp [insertDesc]
  | cons y ys ih =>
    rw [List.pairwise_cons] at h
    unfold insertDesc
    by_cases hc : y.score.coverageScore ≤ x.score.coverageScore
    · rw [if_pos hc]
      rw [List.pairwise_cons]
      refine ⟨?_, List.pairwise_cons.mpr h⟩
      intro z hz
      rcases List.mem_cons.mp hz with h1 | h2
      · subst h1; exact hc
      · exact le_trans (h.1 z h2) hc
    · rw [if_neg hc]
      rw [List.pairwise_cons]
      refine ⟨?_, ih h.2⟩
      intro z hz
      rcases (mem_insertDesc x z ys).mp hz with h1 | h2
      · subst h1
        exact le_of_lt (lt_of_not_le hc)
      · exact h.1 z h2

theorem sortByCoverageDesc_perm (l : List ScoredRecipe) :
    List.Perm (sortByCoverageDesc l) l := by
  induction l with
  | nil => exact List.Perm.refl _
  | cons x t ih =>
    exact (insertDesc_perm x (sortByCoverageDesc t)).trans (ih.cons x)

theorem sortByCoverageDesc_pairwise (l : List ScoredRecipe) :
    (sortByCoverageDesc l).Pairwise
      (fun a b => b.score.coverageScore ≤ a.score.coverageScore) := by
  induction l with
  | nil => simp [sortByCoverageDesc]
  | cons x t ih => exact pairwise_insertDesc x (sortByCoverageDesc t) ih

theorem filter_insertDesc_pos (x : ScoredRecipe) (l : List ScoredRecipe)
    (p : ScoredRecipe → Bool) (hpx : p x = true)
    (hkey : ∀ z, p z = true → z.score.coverageScore = x.score.coverageScore) :
    (insertDesc x l).filter p = x :: l.filter p := by
  induction l with
  | nil => simp [insertDesc, hpx]
  | cons y ys ih =>
    unfold insertDesc
    by_cases hc : y.score.coverageScore ≤ x.score.coverageScore
    · rw [if_pos hc]
      simp [List.filter_cons, hpx]
    · rw [if_neg hc]
      have hpy : p y = false := by
        cases hy : p y with
        | false => rfl
        | true => exact absurd (hkey y hy ▸ le_refl _) hc
      rw [List.filter_cons, hpy, ih, List.filter_cons, hpy]
      simp

theorem filter_insertDesc_neg (x : ScoredRecipe) (l : List ScoredRecipe)
    (p : ScoredRecipe → Bool) (hpx : p x = false) :
    (insertDesc x l).filter p = l.filter p := by
  induction l with
  | nil => simp [insertDesc, hpx]
  | cons y ys ih =>
    unfold insertDesc
    by_cases hc : y.score.coverageScore ≤ x.score.coverageScore
    · rw [if_pos hc]
      simp [List.filter_cons, hpx]
    · rw [if_neg hc]
      simp only [List.filter_cons]
      rw [ih]

theorem filter_sortByCoverageDesc (l : List ScoredRecipe) (q : ℚ) :
    (sortByCoverageDesc l).filter (fun sr => sr.score.coverageScore = q) =
      l.filter (fun sr => sr.score.coverageScore = q) := by
  induction l with
  | nil => rfl
  | cons x t ih =>
    show (insertDesc x (sortByCoverageDesc t)).filter _ = _
    by_cases hpx : x.score.coverageScore = q
    · rw [filter_insertDesc_pos x _ _ (by simpa using hpx)
        (fun z hz => by
          have := of_decide_eq_true hz
          rw [this, hpx])]
      rw [List.filter_cons, ih]
      simp [hpx]
    · rw [filter_insertDesc_neg x _ _ (by simpa using hpx)]
      rw [List.filter_cons, ih]
      simp [hpx]

theorem filter_take_append {α : Type _} (p : α → Bool) (l : List α) (n : Nat) :
    ∃ t, l.filter p = (l.take n).filter p ++ t := by
  refine ⟨(l.drop n).filter p, ?_⟩
  rw [← List.filter_append, List.take_append_drop]

/-! ## Scoring lemmas -/

theorem scoreRecipes_foldl_eq (scores : List (String × RecipeMatchScore))
    (l : List Recipe) (acc : List ScoredRecipe) :
    l.foldl
      (fun scored r =>
        match lookupL scores r.id with
        | some score =>
          if mkRat 1 10 < score.coverageScore then
            scored ++ [{ recipe := r, score := score }]
          else scored
        | none => scored)
      acc = acc ++ l.filterMap (chooseScored scores) := by
  induction l generalizing acc with
  | nil => simp
  | cons r t ih =>
    rw [List.foldl_cons, List.filterMap_cons]
    cases hl : lookupL scores r.id with
    | none =>
      simp only [hl, chooseScored]
      rw [ih]
    | some score =>
      by_cases hsc : mkRat 1 10 < score.coverageScore
      · simp only [hl, if_pos hsc, chooseScored]
        rw [ih]
        simp
      · simp only [hl, if_neg hsc, chooseScored]
        rw [ih]

theorem scoreRecipes_eq_filterMap
    (matchModel : List String → List String → Option RecipeMatchScore)
    (userIngredients : List String) (recipes : List Recipe) :
    scoreRecipes matchModel userIngredients recipes =
      recipes.filterMap (chooseScored (scoreBatch matchModel userIngredients
        (recipes.map (fun r => (r.id, r.extractedIngredients))))) := by
  unfold scoreRecipes
  rw [scoreRecipes_foldl_eq]
  rfl

theorem chooseScored_some (scores : List (String × RecipeMatchScore))
    (r : Recipe) (sr : ScoredRecipe) (h : chooseScored scores r = some sr) :
    sr.recipe = r ∧ mkRat 1 10 < sr.score.coverageScore := by
  cases hl : lookupL scores r.id with
  | none => simp [chooseScored, hl] at h
  | some score =>
    simp only [chooseScored, hl] at h
    by_cases hsc : mkRat 1 10 < score.coverageScore
    · rw [if_pos hsc] at h
      cases h
      exact ⟨rfl, hsc⟩
    · rw [if_neg hsc] at h
      cases h

theorem mem_scoreRecipes_gt
    (matchModel : List String → List String → Option RecipeMatchScore)
    (userIngredients : List String) (recipes : List Recipe) :
    ∀ sr ∈ scoreRecipes matchModel userIngredients recipes,
      mkRat 1 10 < sr.score.coverageScore := by
  intro sr hsr
  rw [scoreRecipes_eq_filterMap] at hsr
  rcases List.mem_filterMap.mp hsr with ⟨r, hr, hch⟩
  exact (chooseScored_some _ r sr hch).2

/-! ## C1: ranked, capped, filtered, stable result -/

/-- C1.  Whenever `search_recipes` returns a list, that list has length at
most `max_results`, is sorted by `coverage_score` descending, contains no
entry with `coverage_score ≤ 0.1`, and for every score value the entries
carrying it form a prefix of the pre-sort (insertion-ordered) scored list
restricted to that value — so equal scores keep their insertion order and the
output is a deterministic function of the inputs and oracle responses. -/
theorem search_recipes_ranked (env : PipelineEnv) (st : CacheState)
    (userId : String) (ingredients : List String) (maxResults : Nat)
    (res : List ScoredRecipe) (st₂ : CacheState)
    (_hing : ingredients ≠ [])
    (hrun : searchRecipes env st userId ingredients maxResults = (.ok res, st₂)) :
    res.length ≤ maxResults ∧
    res.Pairwise (fun a b => b.score.coverageScore ≤ a.score.coverageScore) ∧
    (∀ sr ∈ res, mkRat 1 10 < sr.score.coverageScore) ∧
    (∀ q : ℚ, ∃ t,
      (scoredPhase env st userId ingredients).filter
          (fun sr => sr.score.coverageScore = q) =
        res.filter (fun sr => sr.score.coverageScore = q) ++ t) := by
  unfold searchRecipes at hrun
  by_cases h1 : allQueriesOf env.queryGen ingredients = []
  · rw [if_pos h1] at hrun
    injection hrun with hres hst
    injection hres with hres
    subst hres
    refine ⟨Nat.zero_le _, List.Pairwise.nil, ?_, ?_⟩
    · intro sr h
      cases h
    · intro q
      exact ⟨(scoredPhase env st userId ingredients).filter
        (fun sr => decide (sr.score.coverageScore = q)), by simp⟩
  · rw [if_neg h1] at hrun
    by_cases h2 : (platformResultsOf env userId ingredients).1 = [] ∧
        (platformResultsOf env userId ingredients).2 = []
    · rw [if_pos h2] at hrun
      injection hrun with hres hst
      exact absurd hres (by simp)
    · rw [if_neg h2] at hrun
      by_cases h3 : (convertedOf env st userId ingredients).1 = []
      · rw [if_pos h3] at hrun
        injection hrun with hres hst
        injection hres with hres
        subst hres
        refine ⟨Nat.zero_le _, List.Pairwise.nil, ?_, ?_⟩
        · intro sr h
          cases h
        · intro q
          exact ⟨(scoredPhase env st userId ingredients).filter
            (fun sr => decide (sr.score.coverageScore = q)), by simp⟩
      · rw [if_neg h3] at hrun
        injection hrun with hres hst
        injection hres with hres
        subst hres
        refine ⟨List.length_take_le _ _, ?_, ?_, ?_⟩
        · exact (sortByCoverageDesc_pairwise _).sublist (List.take_sublist _ _)
        · intro sr hsr
          have hmem : sr ∈ sortByCoverageDesc (scoredPhase env st userId ingredients) :=
            List.mem_of_mem_take hsr
          have hmem2 : sr ∈ scoredPhase env st userId ingredients :=
            (sortByCoverageDesc_perm _).mem_iff.mp hmem
          exact mem_scoreRecipes_gt _ _ _ sr hmem2
        · intro q
          obtain ⟨t, ht⟩ := filter_take_append
            (fun sr => decide (sr.score.coverageScore = q))
            (sortByCoverageDesc (scoredPhase env st userId ingredients)) maxResults
          refine ⟨t, ?_⟩
          rw [← filter_sortByCoverageDesc (scoredPhase env st userId ingredients) q]
          exact ht

/-- Witness for C1 at the concrete oracle bundle `wEnv`. -/
theorem search_recipes_ranked_witness :
    ([{ recipe := wRecipe1, score := wScore }] : List ScoredRecipe).length ≤ 15 ∧
    mkRat 1 10 < wScore.coverageScore ∧
    (∃ t, (scoredPhase wEnv emptyCache "u" ["egg"]).filter
        (fun sr => sr.score.coverageScore = mkRat 3 4) =
      ([{ recipe := wRecipe1, score := wScore }] : List ScoredRecipe).filter
        (fun sr => sr.score.coverageScore = mkRat 3 4) ++ t) := by
  have h := search_recipes_ranked wEnv emptyCache "u" ["egg"] 15
    [{ recipe := wRecipe1, score := wScore }] (cachePut emptyCache wRecipe1 0)
    (by decide) (by decide)
  exact ⟨h.1, h.2.2.1 _ (List.mem_singleton_self _), h.2.2.2 (mkRat 3 4)⟩

/-! ## C2: terminal failure and partial-failure isolation -/

/-- C2.  With a non-empty query list: if both platform tasks end up empty
(returning `[]` or raising), `search_recipes` raises exactly
"No recipes found from any source"; if the YouTube task raises, the call
behaves exactly as a call whose YouTube task returned no results — results
derive solely from Instagram — and no exception propagates whenever the
surviving task returned a non-empty list; symmetrically for an Instagram
raise.  One platform's failure never aborts the other task or the call. -/
theorem platform_failure_isolation (env : PipelineEnv) (st : CacheState)
    (userId : String) (ingredients : List String) (maxResults : Nat)
    (hq : allQueriesOf env.queryGen ingredients ≠ []) :
    ((emptyOutcome (env.ytTask (allQueriesOf env.queryGen ingredients)
          (ytChannelsOf env.creators userId)) ∧
      emptyOutcome (env.igTask (allQueriesOf env.queryGen ingredients)
          (igAccountsOf env.creators userId))) →
      searchRecipes env st userId ingredients maxResults =
        (.error "No recipes found from any source", st)) ∧
    (∀ e, env.ytTask (allQueriesOf env.queryGen ingredients)
          (ytChannelsOf env.creators userId) = .error e →
      searchRecipes env st userId ingredients maxResults =
        searchRecipes { env with ytTask := fun _ _ => .ok [] }
          st userId ingredients maxResults ∧
      (∀ l, env.igTask (allQueriesOf env.queryGen ingredients)
            (igAccountsOf env.creators userId) = .ok l → l ≠ [] →
        ∃ v st₂, searchRecipes env st userId ingredients maxResults =
          (.ok v, st₂))) ∧
    (∀ e, env.igTask (allQueriesOf env.queryGen ingredients)
          (igAccountsOf env.creators userId) = .error e →
      searchRecipes env st userId ingredients maxResults =
        searchRecipes { env with igTask := fun _ _ => .ok [] }
          st userId ingredients maxResults ∧
      (∀ l, env.ytTask (allQueriesOf env.queryGen ingredients)
            (ytChannelsOf env.creators userId) = .ok l → l ≠ [] →
        ∃ v st₂, searchRecipes env st userId ingredients maxResults =
          (.ok v, st₂))) := by
  refine ⟨?_, ?_, ?_⟩
  · rintro ⟨hyt, hig⟩
    have hp : platformResultsOf env userId ingredients = ([], []) := by
      unfold platformResultsOf searchAllPlatforms
      cases hyto : env.ytTask (allQueriesOf env.queryGen ingredients)
          (ytChannelsOf env.creators userId) with
      | error e =>
        cases higo : env.igTask (allQueriesOf env.queryGen ingredients)
            (igAccountsOf env.creators userId) with
        | error f => rfl
        | ok l =>
          unfold emptyOutcome at hig
          rw [higo] at hig
          simp [hig]
      | ok l =>
        unfold emptyOutcome at hyt
        rw [hyto] at hyt
        cases higo : env.igTask (allQueriesOf env.queryGen ingredients)
            (igAccountsOf env.creators userId) with
        | error f => simp [hyt]
        | ok l₂ =>
          unfold emptyOutcome at hig
          rw [higo] at hig
          simp [hyt, hig]
    unfold searchRecipes
    rw [if_neg hq]
    rw [if_pos (by rw [hp]; exact ⟨rfl, rfl⟩)]
  · intro e hyt
    have hp : platformResultsOf env userId ingredients =
        platformResultsOf { env with ytTask := fun _ _ => .ok [] }
          userId ingredients := by
      unfold platformResultsOf searchAllPlatforms
      rw [hyt]
    constructor
    · unfold searchRecipes scoredPhase convertedOf
      rw [hp]
    · intro l hig hl
      have hp2 : platformResultsOf env userId ingredients = ([], l) := by
        unfold platformResultsOf searchAllPlatforms
        rw [hyt, hig]
      have hcond : ¬ ((platformResultsOf env userId ingredients).1 = [] ∧
          (platformResultsOf env userId ingredients).2 = []) := by
        rw [hp2]
        intro hand
        exact hl hand.2
      unfold searchRecipes
      rw [if_neg hq, if_neg hcond]
      by_cases hconv : (convertedOf env st userId ingredients).1 = []
      · rw [if_pos hconv]
        exact ⟨[], _, rfl⟩
      · rw [if_neg hconv]
        exact ⟨_, _, rfl⟩
  · intro e hig
    have hp : platformResultsOf env userId ingredients =
        platformResultsOf { env with igTask := fun _ _ => .ok [] }
          userId ingredients := by
      unfold platformResultsOf searchAllPlatforms
      rw [hig]
    constructor
    · unfold searchRecipes scoredPhase convertedOf
      rw [hp]
    · intro l hyt hl
      have hp2 : platformResultsOf env userId ingredients = (l, []) := by
        unfold platformResultsOf searchAllPlatforms
        rw [hyt, hig]
      have hcond : ¬ ((platformResultsOf env userId ingredients).1 = [] ∧
          (platformResultsOf env userId ingredients).2 = []) := by
        rw [hp2]
        intro hand
        exact hl hand.1
      unfold searchRecipes
      rw [if_neg hq, if_neg hcond]
      by_cases hconv : (convertedOf env st userId ingredients).1 = []
      · rw [if_pos hconv]
        exact ⟨[], _, rfl⟩
      · rw [if_neg hconv]
        exact ⟨_, _, rfl⟩

/-- Witness for C2: with both tasks failing the call returns the terminal
error; with only Instagram raising the call still succeeds from YouTube. -/
theorem platform_failure_isolation_witness :
    searchRecipes wEnvBoth emptyCache "u" ["egg"] 15 =
      (.error "No recipes found from any source", emptyCache) ∧
    searchRecipes wEnv emptyCache "u" ["egg"] 15 =
      searchRecipes { wEnv with igTask := fun _ _ => .ok [] }
        emptyCache "u" ["egg"] 15 ∧
    (∃ v st₂, searchRecipes wEnv emptyCache "u" ["egg"] 15 = (.ok v, st₂)) := by
  have h1 := (platform_failure_isolation wEnvBoth emptyCache "u" ["egg"] 15
    (by decide)).1 ⟨trivial, trivial⟩
  have h2 := (platform_failure_isolation wEnv emptyCache "u" ["egg"] 15
    (by decide)).2.2 "rate limited" rfl
  exact ⟨h1, h2.1, h2.2 [wYtA1] rfl (by decide)⟩

/-! ## C6: the 0.5 confidence gate during conversion -/

/-- C6.  For a cache-miss candidate whose parse returns confidence < 0.5 or
an empty ingredient list, the conversion step appends nothing and writes
nothing to the cache (only the read-time eviction of `get_by_source` can have
happened), so the candidate contributes nothing to the converted set of the
whole run; a candidate parsed at confidence exactly 0.5 with non-empty
ingredients is appended, written to the cache, and immediately readable from
it.  Both halves are proved for the YouTube branch and for the Instagram
branch. -/
theorem convert_confidence_gate
    (parse : String → String → Except String ParsedRecipeIngredients)
    (now : Int) (freshIds : Nat → String) (recipes : List Recipe)
    (st : CacheState) (n : Nat) (r : YouTubeSearchResult)
    (g : InstagramSearchResult) (parsed : ParsedRecipeIngredients) :
    ((cacheGetBySource st .youtube r.videoId now).1 = none →
      parse r.title r.description = .ok parsed →
      ((parsed.confidence < mkRat 1 2 ∨ parsed.ingredients = []) →
        convertYTStep parse now freshIds (recipes, st, n) r =
          (recipes, (cacheGetBySource st .youtube r.videoId now).2, n) ∧
        (∀ rest ig, convertToRecipes parse now freshIds (r :: rest) ig st =
          convertToRecipes parse now freshIds rest ig
            (cacheGetBySource st .youtube r.videoId now).2)) ∧
      (parsed.confidence = mkRat 1 2 → parsed.ingredients ≠ [] →
        convertYTStep parse now freshIds (recipes, st, n) r =
          (recipes ++ [mkYtRecipe now (freshIds n) r parsed.ingredients],
            cachePut (cacheGetBySource st .youtube r.videoId now).2
              (mkYtRecipe now (freshIds n) r parsed.ingredients) now,
            n + 1) ∧
        (freshIds n ≠ "" →
          (cacheGetBySource
              (cachePut (cacheGetBySource st .youtube r.videoId now).2
                (mkYtRecipe now (freshIds n) r parsed.ingredients) now)
              .youtube r.videoId now).1 =
            some (mkYtRecipe now (freshIds n) r parsed.ingredients)))) ∧
    ((cacheGetBySource st .instagram g.postId now).1 = none →
      parse "" g.caption = .ok parsed →
      ((parsed.confidence < mkRat 1 2 ∨ parsed.ingredients = []) →
        convertIGStep parse now freshIds (recipes, st, n) g =
          (recipes, (cacheGetBySource st .instagram g.postId now).2, n)) ∧
      (parsed.confidence = mkRat 1 2 → parsed.ingredients ≠ [] →
        convertIGStep parse now freshIds (recipes, st, n) g =
          (recipes ++ [mkIgRecipe now (freshIds n) g parsed.ingredients],
            cachePut (cacheGetBySource st .instagram g.postId now).2
              (mkIgRecipe now (freshIds n) g parsed.ingredients) now,
            n + 1) ∧
        (freshIds n ≠ "" →
          (cacheGetBySource
              (cachePut (cacheGetBySource st .instagram g.postId now).2
                (mkIgRecipe now (freshIds n) g parsed.ingredients) now)
              .instagram g.postId now).1 =
            some (mkIgRecipe now (freshIds n) g parsed.ingredients)))) := by
  constructor
  · intro hmiss hparse
    constructor
    · intro hlow
      have hstep : convertYTStep parse now freshIds (recipes, st, n) r =
          (recipes, (cacheGetBySource st .youtube r.videoId now).2, n) := by
        unfold convertYTStep
        dsimp only
        simp only [hmiss, hparse]
        rw [if_pos hlow]
      refine ⟨hstep, ?_⟩
      intro rest ig
      unfold convertToRecipes
      rw [List.foldl_cons]
      have hstep0 : convertYTStep parse now freshIds ([], st, 0) r =
          ([], (cacheGetBySource st .youtube r.videoId now).2, 0) := by
        unfold convertYTStep
        dsimp only
        simp only [hmiss, hparse]
        rw [if_pos hlow]
      rw [hstep0]
    · intro hconf hne
      have hgate : ¬ (parsed.confidence < mkRat 1 2 ∨ parsed.ingredients = []) := by
        rw [hconf]
        rintro (hlt | hnil)
        · exact lt_irrefl _ hlt
        · exact hne hnil
      have hstep : convertYTStep parse now freshIds (recipes, st, n) r =
          (recipes ++ [mkYtRecipe now (freshIds n) r parsed.ingredients],
            cachePut (cacheGetBySource st .youtube r.videoId now).2
              (mkYtRecipe now (freshIds n) r parsed.ingredients) now,
            n + 1) := by
        unfold convertYTStep
        dsimp only
        simp only [hmiss, hparse]
        rw [if_neg hgate]
      refine ⟨hstep, ?_⟩
      intro hid
      set rec := mkYtRecipe now (freshIds n) r parsed.ingredients with hrec
      have hfresh : ¬ rec.cacheExpiresAt ≤ rec.cachedAt := by
        rw [hrec]
        unfold mkYtRecipe
        dsimp only
        norm_num [secondsPerDay]
      have hput : cachePut (cacheGetBySource st .youtube r.videoId now).2 rec now =
          { (cacheGetBySource st .youtube r.videoId now).2 with
            recipes := updEntry (cacheGetBySource st .youtube r.videoId now).2.recipes
              rec.id rec
            sourceIndex := updEntry
              (cacheGetBySource st .youtube r.videoId now).2.sourceIndex
              (rec.source, rec.sourceId) rec.id } := by
        simp only [cachePut, if_neg hfresh]
      rw [hput]
      unfold cacheGetBySource
      have hkey : (Source.youtube, r.videoId) = (rec.source, rec.sourceId) := rfl
      rw [hkey, lookupL_updEntry_self]
      dsimp only
      rw [if_neg (by rw [hrec]; exact hid)]
      unfold cacheGet
      rw [lookupL_updEntry_self]
      dsimp only
      rw [if_pos ?_]
      have : rec.cacheExpiresAt = now + 30 * secondsPerDay := rfl
      rw [this]
      norm_num [secondsPerDay]
  · intro hmiss hparse
    constructor
    · intro hlow
      unfold convertIGStep
      dsimp only
      simp only [hmiss, hparse]
      rw [if_pos hlow]
    · intro hconf hne
      have hgate : ¬ (parsed.confidence < mkRat 1 2 ∨ parsed.ingredients = []) := by
        rw [hconf]
        rintro (hlt | hnil)
        · exact lt_irrefl _ hlt
        · exact hne hnil
      have hstep : convertIGStep parse now freshIds (recipes, st, n) g =
          (recipes ++ [mkIgRecipe now (freshIds n) g parsed.ingredients],
            cachePut (cacheGetBySource st .instagram g.postId now).2
              (mkIgRecipe now (freshIds n) g parsed.ingredients) now,
            n + 1) := by
        unfold convertIGStep
        dsimp only
        simp only [hmiss, hparse]
        rw [if_neg hgate]
      refine ⟨hstep, ?_⟩
      intro hid
      set rec := mkIgRecipe now (freshIds n) g parsed.ingredients with hrec
      have hfresh : ¬ rec.cacheExpiresAt ≤ rec.cachedAt := by
        rw [hrec]
        unfold mkIgRecipe
        dsimp only
        norm_num [secondsPerDay]
      have hput : cachePut (cacheGetBySource st .instagram g.postId now).2 rec now =
          { (cacheGetBySource st .instagram g.postId now).2 with
            recipes := updEntry
              (cacheGetBySource st .instagram g.postId now).2.recipes rec.id rec
            sourceIndex := updEntry
              (cacheGetBySource st .instagram g.postId now).2.sourceIndex
              (rec.source, rec.sourceId) rec.id } := by
        simp only [cachePut, if_neg hfresh]
      rw [hput]
      unfold cacheGetBySource
      have hkey : (Source.instagram, g.postId) = (rec.source, rec.sourceId) := rfl
      rw [hkey, lookupL_updEntry_self]
      dsimp only
      rw [if_neg (by rw [hrec]; exact hid)]
      unfold cacheGet
      rw [lookupL_updEntry_self]
      dsimp only
      rw [if_pos ?_]
      have : rec.cacheExpiresAt = now + 30 * secondsPerDay := rfl
      rw [this]
      norm_num [secondsPerDay]

/-- Witness for C6: a parse at confidence 0.4 is discarded without caching; a
parse at exactly 0.5 is retained, cached, and readable back, on both the
YouTube and the Instagram branch. -/
theorem convert_confidence_gate_witness :
    (convertYTStep (fun _ _ => .ok { ingredients := ["egg"], confidence := mkRat 2 5 })
        0 (fun n => "uuid-" ++ toString n) ([], emptyCache, 0) wYtA1 =
      ([], (cacheGetBySource emptyCache .youtube wYtA1.videoId 0).2, 0)) ∧
    (convertYTStep (fun _ _ => .ok { ingredients := ["egg"], confidence := mkRat 1 2 })
        0 (fun n => "uuid-" ++ toString n) ([], emptyCache, 0) wYtA1 =
      ([mkYtRecipe 0 "uuid-0" wYtA1 ["egg"]],
        cachePut (cacheGetBySource emptyCache .youtube wYtA1.videoId 0).2
          (mkYtRecipe 0 "uuid-0" wYtA1 ["egg"]) 0, 1)) ∧
    ((cacheGetBySource
        (cachePut (cacheGetBySource emptyCache .youtube wYtA1.videoId 0).2
          (mkYtRecipe 0 "uuid-0" wYtA1 ["egg"]) 0)
        .youtube wYtA1.videoId 0).1 =
      some (mkYtRecipe 0 "uuid-0" wYtA1 ["egg"])) ∧
    (convertIGStep (fun _ _ => .ok { ingredients := ["egg"], confidence := mkRat 1 2 })
        0 (fun n => "uuid-" ++ toString n) ([], emptyCache, 0) wIgA =
      ([mkIgRecipe 0 "uuid-0" wIgA ["egg"]],
        cachePut (cacheGetBySource emptyCache .instagram wIgA.postId 0).2
          (mkIgRecipe 0 "uuid-0" wIgA ["egg"]) 0, 1)) ∧
    ((cacheGetBySource
        (cachePut (cacheGetBySource emptyCache .instagram wIgA.postId 0).2
          (mkIgRecipe 0 "uuid-0" wIgA ["egg"]) 0)
        .instagram wIgA.postId 0).1 =
      some (mkIgRecipe 0 "uuid-0" wIgA ["egg"])) := by
  have hlow := ((convert_confidence_gate
    (fun _ _ => .ok { ingredients := ["egg"], confidence := mkRat 2 5 })
    0 (fun n => "uuid-" ++ toString n) [] emptyCache 0 wYtA1 wIgA
    { ingredients := ["egg"], confidence := mkRat 2 5 }).1
    (by decide) rfl).1 (by left; decide)
  have hhigh := ((convert_confidence_gate
    (fun _ _ => .ok { ingredients := ["egg"], confidence := mkRat 1 2 })
    0 (fun n => "uuid-" ++ toString n) [] emptyCache 0 wYtA1 wIgA
    { ingredients := ["egg"], confidence := mkRat 1 2 }).1
    (by decide) rfl).2 rfl (by decide)
  have higa := ((convert_confidence_gate
    (fun _ _ => .ok { ingredients := ["egg"], confidence := mkRat 1 2 })
    0 (fun n => "uuid-" ++ toString n) [] emptyCache 0 wYtA1 wIgA
    { ingredients := ["egg"], confidence := mkRat 1 2 }).2
    (by decide) rfl).2 rfl (by decide)
  exact ⟨hlow.1, hhigh.1, hhigh.2 (by decide), higa.1, higa.2 (by decide)⟩

/-! ## C7: ordered progress events, terminal stream shape -/

theorem streamEvents_shape (events : List ProgressEvent)
    (outcome : Except String (List ScoredRecipe)) :
    ∃ pre last, streamEvents events outcome = pre ++ [last] ∧
      (∀ x ∈ pre, x.isTerminal = false) ∧ last.isTerminal = true := by
  refine ⟨events.map SSEEvent.progress,
    match outcome with
    | .ok v => SSEEvent.result v
    | .error msg => SSEEvent.error msg, rfl, ?_, ?_⟩
  · intro x hx
    rcases List.mem_map.mp hx with ⟨ev, hev, hx2⟩
    rw [← hx2]
    rfl
  · cases outcome <;> rfl

/-- C7.  The progress-reporting run returns exactly the pipeline result of
`search_recipes`; its events carry strictly increasing step indices and the
fixed total step count 6; and the streamed event sequence is zero-or-more
`progress` events followed by exactly one terminal `result` or `error`
event. -/
theorem progress_stream_contract (env : PipelineEnv) (st : CacheState)
    (userId : String) (ingredients : List String) (maxResults : Nat) :
    (searchRecipesWithProgress env st userId ingredients maxResults).2 =
      searchRecipes env st userId ingredients maxResults ∧
    (searchRecipesWithProgress env st userId ingredients maxResults).1.Pairwise
      (fun a b => a.step < b.step) ∧
    (∀ e ∈ (searchRecipesWithProgress env st userId ingredients maxResults).1,
      e.totalSteps = progressTotalSteps) ∧
    (∃ pre last,
      streamEvents (searchRecipesWithProgress env st userId ingredients maxResults).1
        (searchRecipesWithProgress env st userId ingredients maxResults).2.1 =
          pre ++ [last] ∧
      (∀ x ∈ pre, x.isTerminal = false) ∧ last.isTerminal = true) := by
  refine ⟨?_, ?_, ?_, streamEvents_shape _ _⟩
  · unfold searchRecipesWithProgress searchRecipes
    by_cases h1 : allQueriesOf env.queryGen ingredients = []
    · rw [if_pos h1, if_pos h1]
    · rw [if_neg h1, if_neg h1]
      by_cases h2 : (platformResultsOf env userId ingredients).1 = [] ∧
          (platformResultsOf env userId ingredients).2 = []
      · rw [if_pos h2, if_pos h2]
      · rw [if_neg h2, if_neg h2]
        by_cases h3 : (convertedOf env st userId ingredients).1 = []
        · rw [if_pos h3, if_pos h3]
        · rw [if_neg h3, if_neg h3]
  · unfold searchRecipesWithProgress
    by_cases h1 : allQueriesOf env.queryGen ingredients = []
    · rw [if_pos h1]
      dsimp only
      decide
    · rw [if_neg h1]
      by_cases h2 : (platformResultsOf env userId ingredients).1 = [] ∧
          (platformResultsOf env userId ingredients).2 = []
      · rw [if_pos h2]
        dsimp only
        decide
      · rw [if_neg h2]
        by_cases h3 : (convertedOf env st userId ingredients).1 = []
        · rw [if_pos h3]
          dsimp only
          decide
        · rw [if_neg h3]
          dsimp only
          decide
  · unfold searchRecipesWithProgress
    by_cases h1 : allQueriesOf env.queryGen ingredients = []
    · rw [if_pos h1]
      dsimp only
      decide
    · rw [if_neg h1]
      by_cases h2 : (platformResultsOf env userId ingredients).1 = [] ∧
          (platformResultsOf env userId ingredients).2 = []
      · rw [if_pos h2]
        dsimp only
        decide
      · rw [if_neg h2]
        by_cases h3 : (convertedOf env st userId ingredients).1 = []
        · rw [if_pos h3]
          dsimp only
          decide
        · rw [if_neg h3]
          dsimp only
          decide

/-! ## C10 machinery: source soundness through the conversion loop -/

theorem getBySource_sound (st : CacheState) (s : Source) (sid : String)
    (now : Int) (r : Recipe) (hs : cacheSourceSound st)
    (h : (cacheGetBySource st s sid now).1 = some r) :
    r.source = s ∧ r.sourceId = sid := by
  unfold cacheGetBySource at h
  cases hidx : lookupL st.sourceIndex (s, sid) with
  | none => rw [hidx] at h; cases h
  | some rid =>
    simp only [hidx] at h
    by_cases hrid : rid = ""
    · rw [if_pos hrid] at h; cases h
    · rw [if_neg hrid] at h
      unfold cacheGet at h
      cases hrec : lookupL st.recipes rid with
      | none => simp only [hrec] at h; cases h
      | some r2 =>
        simp only [hrec] at h
        by_cases hexp : now < r2.cacheExpiresAt
        · rw [if_pos hexp] at h
          have : r2 = r := by injection h
          subst this
          exact hs s sid rid r2 hidx hrec
        · rw [if_neg hexp] at h; cases h

theorem sound_remove (st : CacheState) (rid : String)
    (hs : cacheSourceSound st) : cacheSourceSound (cacheRemove st rid) := by
  unfold cacheRemove
  cases hrec : lookupL st.recipes rid with
  | none => exact hs
  | some r =>
    intro s sid rid2 r2 hidx2 hrec2
    dsimp only at hidx2 hrec2
    rw [lookupL_delKey] at hidx2 hrec2
    by_cases h1 : (s, sid) = (r.source, r.sourceId)
    · rw [if_pos h1] at hidx2; cases hidx2
    · rw [if_neg h1] at hidx2
      by_cases h2 : rid2 = rid
      · rw [if_pos h2] at hrec2; cases hrec2
      · rw [if_neg h2] at hrec2
        exact hs s sid rid2 r2 hidx2 hrec2

theorem fresh_remove (st : CacheState) (rid id2 : String)
    (hf : idFreshFor st id2) : idFreshFor (cacheRemove st rid) id2 := by
  unfold cacheRemove
  cases hrec : lookupL st.recipes rid with
  | none => exact hf
  | some r =>
    intro k rid2 hidx2
    dsimp only at hidx2
    rw [lookupL_delKey] at hidx2
    by_cases h1 : k = (r.source, r.sourceId)
    · rw [if_pos h1] at hidx2; cases hidx2
    · rw [if_neg h1] at hidx2
      exact hf k rid2 hidx2

theorem sound_getBySource_state (st : CacheState) (s : Source) (sid : String)
    (now : Int) (hs : cacheSourceSound st) :
    cacheSourceSound (cacheGetBySource st s sid now).2 := by
  unfold cacheGetBySource
  cases hidx : lookupL st.sourceIndex (s, sid) with
  | none => exact hs
  | some rid =>
    simp only
    by_cases hrid : rid = ""
    · rw [if_pos hrid]; exact hs
    · rw [if_neg hrid]
      unfold cacheGet
      cases hrec : lookupL st.recipes rid with
      | none => exact hs
      | some r =>
        simp only [hrec]
        by_cases hexp : now < r.cacheExpiresAt
        · rw [if_pos hexp]; exact hs
        · rw [if_neg hexp]; exact sound_remove st rid hs

theorem fresh_getBySource_state (st : CacheState) (s : Source) (sid : String)
    (now : Int) (id2 : String) (hf : idFreshFor st id2) :
    idFreshFor (cacheGetBySource st s sid now).2 id2 := by
  unfold cacheGetBySource
  cases hidx : lookupL st.sourceIndex (s, sid) with
  | none => exact hf
  | some rid =>
    simp only
    by_cases hrid : rid = ""
    · rw [if_pos hrid]; exact hf
    · rw [if_neg hrid]
      unfold cacheGet
      cases hrec : lookupL st.recipes rid with
      | none => exact hf
      | some r =>
        simp only [hrec]
        by_cases hexp : now < r.cacheExpiresAt
        · rw [if_pos hexp]; exact hf
        · rw [if_neg hexp]; exact fresh_remove st rid id2 hf

theorem sound_put (st : CacheState) (r : Recipe) (now : Int)
    (hs : cacheSourceSound st) (hf : idFreshFor st r.id) :
    cacheSourceSound (cachePut st r now) := by
  have main : ∀ stored : Recipe, stored.id = r.id →
      stored.source = r.source → stored.sourceId = r.sourceId →
      cacheSourceSound
        { st with
          recipes := updEntry st.recipes stored.id stored
          sourceIndex := updEntry st.sourceIndex
            (stored.source, stored.sourceId) stored.id } := by
    intro stored hid hsrc hsid
    intro s sid rid2 r2 hidx2 hrec2
    dsimp only at hidx2 hrec2
    rw [lookupL_updEntry] at hidx2 hrec2
    by_cases h1 : (s, sid) = (stored.source, stored.sourceId)
    · rw [if_pos h1] at hidx2
      have hr2 : stored.id = rid2 := by injection hidx2
      rw [← hr2, if_pos rfl] at hrec2
      have : stored = r2 := by injection hrec2
      subst this
      have h1a : s = stored.source := congrArg Prod.fst h1
      have h1b : sid = stored.sourceId := congrArg Prod.snd h1
      exact ⟨h1a.symm, h1b.symm⟩
    · rw [if_neg h1] at hidx2
      have hne : rid2 ≠ stored.id := by
        intro heq
        exact hf (s, sid) rid2 hidx2 (heq.trans hid)
      rw [if_neg hne] at hrec2
      exact hs s sid rid2 r2 hidx2 hrec2
  unfold cachePut
  by_cases hle : r.cacheExpiresAt ≤ r.cachedAt
  · rw [if_pos hle]
    exact main _ rfl rfl rfl
  · rw [if_neg hle]
    exact main _ rfl rfl rfl

theorem fresh_put (st : CacheState) (r : Recipe) (now : Int) (id2 : String)
    (hf : idFreshFor st id2) (hne : r.id ≠ id2) :
    idFreshFor (cachePut st r now) id2 := by
  have main : ∀ stored : Recipe, stored.id = r.id →
      idFreshFor
        { st with
          recipes := updEntry st.recipes stored.id stored
          sourceIndex := updEntry st.sourceIndex
            (stored.source, stored.sourceId) stored.id } id2 := by
    intro stored hid
    intro k rid2 hidx2
    dsimp only at hidx2
    rw [lookupL_updEntry] at hidx2
    by_cases h1 : k = (stored.source, stored.sourceId)
    · rw [if_pos h1] at hidx2
      have : stored.id = rid2 := by injection hidx2
      rw [← this, hid]
      exact hne
    · rw [if_neg h1] at hidx2
      exact hf k rid2 hidx2
  unfold cachePut
  by_cases hle : r.cacheExpiresAt ≤ r.cachedAt
  · rw [if_pos hle]
    exact main _ rfl
  · rw [if_neg hle]
    exact main _ rfl

theorem convertYT_fold_spec
    (parse : String → String → Except String ParsedRecipeIngredients)
    (now : Int) (freshIds : Nat → String)
    (hinj : ∀ a b, freshIds a = freshIds b → a = b) :
    ∀ (yt : List YouTubeSearchResult) (acc : List Recipe × CacheState × Nat),
      cacheSourceSound acc.2.1 →
      (∀ m, acc.2.2 ≤ m → idFreshFor acc.2.1 (freshIds m)) →
      cacheSourceSound (yt.foldl (convertYTStep parse now freshIds) acc).2.1 ∧
      (∀ m, (yt.foldl (convertYTStep parse now freshIds) acc).2.2 ≤ m →
        idFreshFor (yt.foldl (convertYTStep parse now freshIds) acc).2.1
          (freshIds m)) ∧
      (∃ newPart,
        (yt.foldl (convertYTStep parse now freshIds) acc).1 = acc.1 ++ newPart ∧
        (∀ r ∈ newPart, r.source = Source.youtube) ∧
        (newPart.map (fun r => r.sourceId)).Sublist
          (yt.map (fun c => c.videoId))) := by
  intro yt
  induction yt with
  | nil =>
    intro acc hs hf
    refine ⟨hs, hf, [], by simp, ?_, List.nil_sublist _⟩
    intro r h
    cases h
  | cons c rest ih =>
    intro acc hs hf
    rw [List.foldl_cons]
    have hs' : cacheSourceSound
        (cacheGetBySource acc.2.1 .youtube c.videoId now).2 :=
      sound_getBySource_state _ _ _ _ hs
    have hf' : ∀ m, acc.2.2 ≤ m →
        idFreshFor (cacheGetBySource acc.2.1 .youtube c.videoId now).2
          (freshIds m) :=
      fun m hm => fresh_getBySource_state _ _ _ _ _ (hf m hm)
    cases hget : (cacheGetBySource acc.2.1 .youtube c.videoId now).1 with
    | some cached =>
      have hck := getBySource_sound acc.2.1 .youtube c.videoId now cached hs hget
      have hstep : convertYTStep parse now freshIds acc c =
          (acc.1 ++ [cached],
            (cacheGetBySource acc.2.1 .youtube c.videoId now).2, acc.2.2) := by
        unfold convertYTStep
        simp only [hget]
      rw [hstep]
      obtain ⟨ihs, ihf, newPart, hnp, hsrc, hsub⟩ :=
        ih (acc.1 ++ [cached],
          (cacheGetBySource acc.2.1 .youtube c.videoId now).2, acc.2.2) hs' hf'
      refine ⟨ihs, ihf, cached :: newPart, ?_, ?_, ?_⟩
      · rw [hnp]
        simp
      · intro r hr
        rcases List.mem_cons.mp hr with h1 | h2
        · subst h1; exact hck.1
        · exact hsrc r h2
      · rw [List.map_cons, List.map_cons]
        rw [show cached.sourceId = c.videoId from hck.2]
        exact hsub.cons₂ _
    | none =>
      cases hparse : parse c.title c.description with
      | error e =>
        have hstep : convertYTStep parse now freshIds acc c =
            (acc.1, (cacheGetBySource acc.2.1 .youtube c.videoId now).2,
              acc.2.2) := by
          unfold convertYTStep
          simp only [hget, hparse]
        rw [hstep]
        obtain ⟨ihs, ihf, newPart, hnp, hsrc, hsub⟩ :=
          ih (acc.1, (cacheGetBySource acc.2.1 .youtube c.videoId now).2,
            acc.2.2) hs' hf'
        exact ⟨ihs, ihf, newPart, hnp, hsrc, hsub.cons _⟩
      | ok parsed =>
        by_cases hgate : parsed.confidence < mkRat 1 2 ∨ parsed.ingredients = []
        · have hstep : convertYTStep parse now freshIds acc c =
              (acc.1, (cacheGetBySource acc.2.1 .youtube c.videoId now).2,
                acc.2.2) := by
            unfold convertYTStep
            simp only [hget, hparse]
            rw [if_pos hgate]
          rw [hstep]
          obtain ⟨ihs, ihf, newPart, hnp, hsrc, hsub⟩ :=
            ih (acc.1, (cacheGetBySource acc.2.1 .youtube c.videoId now).2,
              acc.2.2) hs' hf'
          exact ⟨ihs, ihf, newPart, hnp, hsrc, hsub.cons _⟩
        · have hstep : convertYTStep parse now freshIds acc c =
              (acc.1 ++ [mkYtRecipe now (freshIds acc.2.2) c parsed.ingredients],
                cachePut (cacheGetBySource acc.2.1 .youtube c.videoId now).2
                  (mkYtRecipe now (freshIds acc.2.2) c parsed.ingredients) now,
                acc.2.2 + 1) := by
            unfold convertYTStep
            simp only [hget, hparse]
            rw [if_neg hgate]
          rw [hstep]
          have hs2 : cacheSourceSound
              (cachePut (cacheGetBySource acc.2.1 .youtube c.videoId now).2
                (mkYtRecipe now (freshIds acc.2.2) c parsed.ingredients) now) :=
            sound_put _ _ _ hs' (hf' acc.2.2 (le_refl _))
          have hf2 : ∀ m, acc.2.2 + 1 ≤ m →
              idFreshFor
                (cachePut (cacheGetBySource acc.2.1 .youtube c.videoId now).2
                  (mkYtRecipe now (freshIds acc.2.2) c parsed.ingredients) now)
                (freshIds m) := by
            intro m hm
            refine fresh_put _ _ _ _ (hf' m (by omega)) ?_
            intro heq
            have := hinj _ _ heq
            omega
          obtain ⟨ihs, ihf, newPart, hnp, hsrc, hsub⟩ :=
            ih (acc.1 ++ [mkYtRecipe now (freshIds acc.2.2) c parsed.ingredients],
              cachePut (cacheGetBySource acc.2.1 .youtube c.videoId now).2
                (mkYtRecipe now (freshIds acc.2.2) c parsed.ingredients) now,
              acc.2.2 + 1) hs2 hf2
          refine ⟨ihs, ihf,
            mkYtRecipe now (freshIds acc.2.2) c parsed.ingredients :: newPart,
            ?_, ?_, ?_⟩
          · rw [hnp]
            simp
          · intro r hr
            rcases List.mem_cons.mp hr with h1 | h2
            · subst h1; rfl
            · exact hsrc r h2
          · rw [List.map_cons, List.map_cons]
            exact hsub.cons₂ _

theorem convertIG_fold_spec
    (parse : String → String → Except String ParsedRecipeIngredients)
    (now : Int) (freshIds : Nat → String)
    (hinj : ∀ a b, freshIds a = freshIds b → a = b) :
    ∀ (ig : List InstagramSearchResult) (acc : List Recipe × CacheState × Nat),
      cacheSourceSound acc.2.1 →
      (∀ m, acc.2.2 ≤ m → idFreshFor acc.2.1 (freshIds m)) →
      cacheSourceSound (ig.foldl (convertIGStep parse now freshIds) acc).2.1 ∧
      (∀ m, (ig.foldl (convertIGStep parse now freshIds) acc).2.2 ≤ m →
        idFreshFor (ig.foldl (convertIGStep parse now freshIds) acc).2.1
          (freshIds m)) ∧
      (∃ newPart,
        (ig.foldl (convertIGStep parse now freshIds) acc).1 = acc.1 ++ newPart ∧
        (∀ r ∈ newPart, r.source = Source.instagram) ∧
        (newPart.map (fun r => r.sourceId)).Sublist
          (ig.map (fun c => c.postId))) := by
  intro ig
  induction ig with
  | nil =>
    intro acc hs hf
    refine ⟨hs, hf, [], by simp, ?_, List.nil_sublist _⟩
    intro r h
    cases h
  | cons c rest ih =>
    intro acc hs hf
    rw [List.foldl_cons]
    have hs' : cacheSourceSound
        (cacheGetBySource acc.2.1 .instagram c.postId now).2 :=
      sound_getBySource_state _ _ _ _ hs
    have hf' : ∀ m, acc.2.2 ≤ m →
        idFreshFor (cacheGetBySource acc.2.1 .instagram c.postId now).2
          (freshIds m) :=
      fun m hm => fresh_getBySource_state _ _ _ _ _ (hf m hm)
    cases hget : (cacheGetBySource acc.2.1 .instagram c.postId now).1 with
    | some cached =>
      have hck := getBySource_sound acc.2.1 .instagram c.postId now cached hs hget
      have hstep : convertIGStep parse now freshIds acc c =
          (acc.1 ++ [cached],
            (cacheGetBySource acc.2.1 .instagram c.postId now).2, acc.2.2) := by
        unfold convertIGStep
        simp only [hget]
      rw [hstep]
      obtain ⟨ihs, ihf, newPart, hnp, hsrc, hsub⟩ :=
        ih (acc.1 ++ [cached],
          (cacheGetBySource acc.2.1 .instagram c.postId now).2, acc.2.2) hs' hf'
      refine ⟨ihs, ihf, cached :: newPart, ?_, ?_, ?_⟩
      · rw [hnp]
        simp
      · intro r hr
        rcases List.mem_cons.mp hr with h1 | h2
        · subst h1; exact hck.1
        · exact hsrc r h2
      · rw [List.map_cons, List.map_cons]
        rw [show cached.sourceId = c.postId from hck.2]
        exact hsub.cons₂ _
    | none =>
      cases hparse : parse "" c.caption with
      | error e =>
        have hstep : convertIGStep parse now freshIds acc c =
            (acc.1, (cacheGetBySource acc.2.1 .instagram c.postId now).2,
              acc.2.2) := by
          unfold convertIGStep
          simp only [hget, hparse]
        rw [hstep]
        obtain ⟨ihs, ihf, newPart, hnp, hsrc, hsub⟩ :=
          ih (acc.1, (cacheGetBySource acc.2.1 .instagram c.postId now).2,
            acc.2.2) hs' hf'
        exact ⟨ihs, ihf, newPart, hnp, hsrc, hsub.cons _⟩
      | ok parsed =>
        by_cases hgate : parsed.confidence < mkRat 1 2 ∨ parsed.ingredients = []
        · have hstep : convertIGStep parse now freshIds acc c =
              (acc.1, (cacheGetBySource acc.2.1 .instagram c.postId now).2,
                acc.2.2) := by
            unfold convertIGStep
            simp only [hget, hparse]
            rw [if_pos hgate]
          rw [hstep]
          obtain ⟨ihs, ihf, newPart, hnp, hsrc, hsub⟩ :=
            ih (acc.1, (cacheGetBySource acc.2.1 .instagram c.postId now).2,
              acc.2.2) hs' hf'
          exact ⟨ihs, ihf, newPart, hnp, hsrc, hsub.cons _⟩
        · have hstep : convertIGStep parse now freshIds acc c =
              (acc.1 ++ [mkIgRecipe now (freshIds acc.2.2) c parsed.ingredients],
                cachePut (cacheGetBySource acc.2.1 .instagram c.postId now).2
                  (mkIgRecipe now (freshIds acc.2.2) c parsed.ingredients) now,
                acc.2.2 + 1) := by
            unfold convertIGStep
            simp only [hget, hparse]
            rw [if_neg hgate]
          rw [hstep]
          have hs2 : cacheSourceSound
              (cachePut (cacheGetBySource acc.2.1 .instagram c.postId now).2
                (mkIgRecipe now (freshIds acc.2.2) c parsed.ingredients) now) :=
            sound_put _ _ _ hs' (hf' acc.2.2 (le_refl _))
          have hf2 : ∀ m, acc.2.2 + 1 ≤ m →
              idFreshFor
                (cachePut (cacheGetBySource acc.2.1 .instagram c.postId now).2
                  (mkIgRecipe now (freshIds acc.2.2) c parsed.ingredients) now)
                (freshIds m) := by
            intro m hm
            refine fresh_put _ _ _ _ (hf' m (by omega)) ?_
            intro heq
            have := hinj _ _ heq
            omega
          obtain ⟨ihs, ihf, newPart, hnp, hsrc, hsub⟩ :=
            ih (acc.1 ++ [mkIgRecipe now (freshIds acc.2.2) c parsed.ingredients],
              cachePut (cacheGetBySource acc.2.1 .instagram c.postId now).2
                (mkIgRecipe now (freshIds acc.2.2) c parsed.ingredients) now,
              acc.2.2 + 1) hs2 hf2
          refine ⟨ihs, ihf,
            mkIgRecipe now (freshIds acc.2.2) c parsed.ingredients :: newPart,
            ?_, ?_, ?_⟩
          · rw [hnp]
            simp
          · intro r hr
            rcases List.mem_cons.mp hr with h1 | h2
            · subst h1; rfl
            · exact hsrc r h2
          · rw [List.map_cons, List.map_cons]
            exact hsub.cons₂ _

theorem convertToRecipes_split
    (parse : String → String → Except String ParsedRecipeIngredients)
    (now : Int) (freshIds : Nat → String)
    (hinj : ∀ a b, freshIds a = freshIds b → a = b)
    (yt : List YouTubeSearchResult) (ig : List InstagramSearchResult)
    (st : CacheState) (hs : cacheSourceSound st)
    (hf : ∀ m, idFreshFor st (freshIds m)) :
    ∃ ytPart igPart,
      (convertToRecipes parse now freshIds yt ig st).1 = ytPart ++ igPart ∧
      (∀ r ∈ ytPart, r.source = Source.youtube) ∧
      (∀ r ∈ igPart, r.source = Source.instagram) ∧
      (ytPart.map (fun r => r.sourceId)).Sublist (yt.map (fun c => c.videoId)) ∧
      (igPart.map (fun r => r.sourceId)).Sublist (ig.map (fun c => c.postId)) := by
  obtain ⟨hs1, hf1, ytPart, hyt1, hytsrc, hytsub⟩ :=
    convertYT_fold_spec parse now freshIds hinj yt ([], st, 0) hs
      (fun m _ => hf m)
  obtain ⟨hs2, hf2, igPart, hig1, higsrc, higsub⟩ :=
    convertIG_fold_spec parse now freshIds hinj ig
      (yt.foldl (convertYTStep parse now freshIds) ([], st, 0)) hs1 hf1
  refine ⟨ytPart, igPart, ?_, hytsrc, higsrc, hytsub, higsub⟩
  unfold convertToRecipes
  rw [hig1, hyt1]
  simp

theorem map_recipe_filterMap_sublist (scores : List (String × RecipeMatchScore))
    (l : List Recipe) :
    ((l.filterMap (chooseScored scores)).map (fun sr => sr.recipe)).Sublist l := by
  induction l with
  | nil => simp
  | cons r t ih =>
    rw [List.filterMap_cons]
    cases hch : chooseScored scores r with
    | none => exact ih.cons _
    | some sr =>
      rw [List.map_cons]
      rw [(chooseScored_some scores r sr hch).1]
      exact ih.cons₂ _

theorem append_split {α : Type _} :
    ∀ (a b c d : List α), a ++ b = c ++ d →
      (∃ w, c = a ++ w) ∨ (∃ w, a = c ++ w ∧ d = w ++ b) := by
  intro a
  induction a with
  | nil =>
    intro b c d h
    left
    exact ⟨c, rfl⟩
  | cons x a2 ih =>
    intro b c d h
    cases c with
    | nil =>
      right
      refine ⟨x :: a2, rfl, ?_⟩
      simpa using h.symm
    | cons y c2 =>
      rw [List.cons_append, List.cons_append] at h
      have hx : x = y := by injection h
      subst hx
      have ht : a2 ++ b = c2 ++ d := by injection h
      rcases ih b c2 d ht with ⟨w, hw⟩ | ⟨w, hw1, hw2⟩
      · left
        exact ⟨w, by rw [List.cons_append, ← hw]⟩
      · right
        exact ⟨w, by rw [List.cons_append, ← hw1], hw2⟩

theorem source_eq_instagram_of_ne (s : Source) (h : s ≠ Source.youtube) :
    s = Source.instagram := by
  cases s with
  | youtube => exact absurd rfl h
  | instagram => rfl

theorem filter_split_yt_ig (la lb : List ScoredRecipe)
    (ha : ∀ x ∈ la, x.recipe.source = Source.youtube)
    (hb : ∀ x ∈ lb, x.recipe.source = Source.instagram) :
    la ++ lb =
      (la ++ lb).filter (fun sr => sr.recipe.source = Source.youtube) ++
      (la ++ lb).filter (fun sr => sr.recipe.source = Source.instagram) := by
  rw [List.filter_append, List.filter_append]
  have h1 : la.filter (fun sr => decide (sr.recipe.source = Source.youtube)) = la :=
    List.filter_eq_self.mpr (fun a ha2 => by simp [ha a ha2])
  have h2 : lb.filter (fun sr => decide (sr.recipe.source = Source.youtube)) = [] :=
    List.filter_eq_nil_iff.mpr (fun a ha2 => by simp [hb a ha2])
  have h3 : la.filter (fun sr => decide (sr.recipe.source = Source.instagram)) = [] :=
    List.filter_eq_nil_iff.mpr (fun a ha2 => by simp [ha a ha2])
  have h4 : lb.filter (fun sr => decide (sr.recipe.source = Source.instagram)) = lb :=
    List.filter_eq_self.mpr (fun a ha2 => by simp [hb a ha2])
  rw [h1, h2, h3, h4]
  simp

/-- C10.  Under a source-sound cache and a fresh, injective uuid supply, the
pre-sort scored list splits as a YouTube block followed by an Instagram
block; each block's `source_id` sequence follows the platform's deduplicated
first-seen result order; the returned list restricted to any score value is
a prefix of the scored list so restricted; and consequently, among returned
recipes of equal `coverage_score`, every YouTube-derived recipe precedes
every Instagram-derived one. -/
theorem equal_score_platform_order (env : PipelineEnv) (st : CacheState)
    (userId : String) (ingredients : List String) (maxResults : Nat)
    (res : List ScoredRecipe) (st₂ : CacheState)
    (hs : cacheSourceSound st)
    (hf : ∀ m, idFreshFor st (env.freshIds m))
    (hinj : ∀ a b, env.freshIds a = env.freshIds b → a = b)
    (hrun : searchRecipes env st userId ingredients maxResults = (.ok res, st₂))
    (q : ℚ) :
    ∃ ytS igS,
      scoredPhase env st userId ingredients = ytS ++ igS ∧
      (∀ sr ∈ ytS, sr.recipe.source = Source.youtube) ∧
      (∀ sr ∈ igS, sr.recipe.source = Source.instagram) ∧
      (ytS.map (fun sr => sr.recipe.sourceId)).Sublist
        ((platformResultsOf env userId ingredients).1.map (fun c => c.videoId)) ∧
      (igS.map (fun sr => sr.recipe.sourceId)).Sublist
        ((platformResultsOf env userId ingredients).2.map (fun c => c.postId)) ∧
      (∃ t, (scoredPhase env st userId ingredients).filter
          (fun sr => sr.score.coverageScore = q) =
        res.filter (fun sr => sr.score.coverageScore = q) ++ t) ∧
      res.filter (fun sr => sr.score.coverageScore = q) =
        (res.filter (fun sr => sr.score.coverageScore = q)).filter
          (fun sr => sr.recipe.source = Source.youtube) ++
        (res.filter (fun sr => sr.score.coverageScore = q)).filter
          (fun sr => sr.recipe.source = Source.instagram) := by
  obtain ⟨ytPart, igPart, hconv, hytsrc, higsrc, hytsub, higsub⟩ :=
    convertToRecipes_split env.parse env.now env.freshIds hinj
      (platformResultsOf env userId ingredients).1
      (platformResultsOf env userId ingredients).2 st hs hf
  have hscored : scoredPhase env st userId ingredients =
      (ytPart ++ igPart).filterMap (chooseScored (scoreBatch env.matchModel
        ingredients ((ytPart ++ igPart).map
          (fun r => (r.id, r.extractedIngredients))))) := by
    unfold scoredPhase
    rw [show (convertedOf env st userId ingredients).1 = ytPart ++ igPart from hconv]
    exact scoreRecipes_eq_filterMap _ _ _
  set scores := scoreBatch env.matchModel ingredients
    ((ytPart ++ igPart).map (fun r => (r.id, r.extractedIngredients))) with hscdef
  have hsplit : scoredPhase env st userId ingredients =
      ytPart.filterMap (chooseScored scores) ++
      igPart.filterMap (chooseScored scores) := by
    rw [hscored, List.filterMap_append]
  refine ⟨ytPart.filterMap (chooseScored scores),
    igPart.filterMap (chooseScored scores), hsplit, ?_, ?_, ?_, ?_, ?_, ?_⟩
  · intro sr hsr
    rcases List.mem_filterMap.mp hsr with ⟨r, hr, hch⟩
    rw [(chooseScored_some scores r sr hch).1]
    exact hytsrc r hr
  · intro sr hsr
    rcases List.mem_filterMap.mp hsr with ⟨r, hr, hch⟩
    rw [(chooseScored_some scores r sr hch).1]
    exact higsrc r hr
  · have h1 : (ytPart.filterMap (chooseScored scores)).map
        (fun sr => sr.recipe.sourceId) =
        ((ytPart.filterMap (chooseScored scores)).map
          (fun sr => sr.recipe)).map (fun r => r.sourceId) := by
      rw [List.map_map]
      rfl
    rw [h1]
    exact ((map_recipe_filterMap_sublist scores ytPart).map
      (fun r => r.sourceId)).trans hytsub
  · have h1 : (igPart.filterMap (chooseScored scores)).map
        (fun sr => sr.recipe.sourceId) =
        ((igPart.filterMap (chooseScored scores)).map
          (fun sr => sr.recipe)).map (fun r => r.sourceId) := by
      rw [List.map_map]
      rfl
    rw [h1]
    exact ((map_recipe_filterMap_sublist scores igPart).map
      (fun r => r.sourceId)).trans higsub
  · unfold searchRecipes at hrun
    by_cases h1 : allQueriesOf env.queryGen ingredients = []
    · rw [if_pos h1] at hrun
      injection hrun with hres hst
      injection hres with hres
      subst hres
      exact ⟨(scoredPhase env st userId ingredients).filter
        (fun sr => decide (sr.score.coverageScore = q)), by simp⟩
    · rw [if_neg h1] at hrun
      by_cases h2 : (platformResultsOf env userId ingredients).1 = [] ∧
          (platformResultsOf env userId ingredients).2 = []
      · rw [if_pos h2] at hrun
        injection hrun with hres hst
        exact absurd hres (by simp)
      · rw [if_neg h2] at hrun
        by_cases h3 : (convertedOf env st userId ingredients).1 = []
        · rw [if_pos h3] at hrun
          injection hrun with hres hst
          injection hres with hres
          subst hres
          exact ⟨(scoredPhase env st userId ingredients).filter
            (fun sr => decide (sr.score.coverageScore = q)), by simp⟩
        · rw [if_neg h3] at hrun
          injection hrun with hres hst
          injection hres with hres
          subst hres
          obtain ⟨t, ht⟩ := filter_take_append
            (fun sr => decide (sr.score.coverageScore = q))
            (sortByCoverageDesc (scoredPhase env st userId ingredients)) maxResults
          refine ⟨t, ?_⟩
          rw [← filter_sortByCoverageDesc (scoredPhase env st userId ingredients) q]
          exact ht
  · -- the returned equal-score entries split as youtube block then instagram block
    have hpre : ∃ t, (scoredPhase env st userId ingredients).filter
        (fun sr => sr.score.coverageScore = q) =
      res.filter (fun sr => sr.score.coverageScore = q) ++ t := by
      unfold searchRecipes at hrun
      by_cases h1 : allQueriesOf env.queryGen ingredients = []
      · rw [if_pos h1] at hrun
        injection hrun with hres hst
        injection hres with hres
        subst hres
        exact ⟨(scoredPhase env st userId ingredients).filter
          (fun sr => decide (sr.score.coverageScore = q)), by simp⟩
      · rw [if_neg h1] at hrun
        by_cases h2 : (platformResultsOf env userId ingredients).1 = [] ∧
            (platformResultsOf env userId ingredients).2 = []
        · rw [if_pos h2] at hrun
          injection hrun with hres hst
          exact absurd hres (by simp)
        · rw [if_neg h2] at hrun
          by_cases h3 : (convertedOf env st userId ingredients).1 = []
          · rw [if_pos h3] at hrun
            injection hrun with hres hst
            injection hres with hres
            subst hres
            exact ⟨(scoredPhase env st userId ingredients).filter
              (fun sr => decide (sr.score.coverageScore = q)), by simp⟩
          · rw [if_neg h3] at hrun
            injection hrun with hres hst
            injection hres with hres
            subst hres
            obtain ⟨t, ht⟩ := filter_take_append
              (fun sr => decide (sr.score.coverageScore = q))
              (sortByCoverageDesc (scoredPhase env st userId ingredients))
              maxResults
            refine ⟨t, ?_⟩
            rw [← filter_sortByCoverageDesc (scoredPhase env st userId ingredients) q]
            exact ht
    obtain ⟨t, ht⟩ := hpre
    rw [hsplit, List.filter_append] at ht
    have hyt2 : ∀ x ∈ (ytPart.filterMap (chooseScored scores)).filter
        (fun sr => decide (sr.score.coverageScore = q)),
        x.recipe.source = Source.youtube := by
      intro x hx
      have hx2 := List.mem_of_mem_filter hx
      rcases List.mem_filterMap.mp hx2 with ⟨r, hr, hch⟩
      rw [(chooseScored_some scores r x hch).1]
      exact hytsrc r hr
    have hig2 : ∀ x ∈ (igPart.filterMap (chooseScored scores)).filter
        (fun sr => decide (sr.score.coverageScore = q)),
        x.recipe.source = Source.instagram := by
      intro x hx
      have hx2 := List.mem_of_mem_filter hx
      rcases List.mem_filterMap.mp hx2 with ⟨r, hr, hch⟩
      rw [(chooseScored_some scores r x hch).1]
      exact higsrc r hr
    rcases append_split _ _ _ _ ht.symm with ⟨w, hw⟩ | ⟨w, hw1, hw2⟩
    · -- the returned filter is a prefix of the youtube block
      have hall : ∀ x ∈ res.filter (fun sr => sr.score.coverageScore = q),
          x.recipe.source = Source.youtube := by
        intro x hx
        refine hyt2 x ?_
        rw [hw]
        exact List.mem_append_left _ hx
      have := filter_split_yt_ig
        (res.filter (fun sr => decide (sr.score.coverageScore = q))) [] hall
        (by intro x hx; cases hx)
      simpa using this
    · -- the returned filter covers the youtube block and a prefix of instagram
      have hwig : ∀ x ∈ w, x.recipe.source = Source.instagram := by
        intro x hx
        refine hig2 x ?_
        rw [hw2]
        exact List.mem_append_left _ hx
      rw [hw1]
      exact filter_split_yt_ig _ w hyt2 hwig

/-- Witness for C10 at the concrete oracle bundle `wEnvC10`. -/
theorem equal_score_platform_order_witness :
    ∃ ytS igS,
      scoredPhase wEnvC10 emptyCache "u" ["egg"] = ytS ++ igS ∧
      (∀ sr ∈ ytS, sr.recipe.source = Source.youtube) ∧
      (∀ sr ∈ igS, sr.recipe.source = Source.instagram) ∧
      (ytS.map (fun sr => sr.recipe.sourceId)).Sublist
        ((platformResultsOf wEnvC10 "u" ["egg"]).1.map (fun c => c.videoId)) ∧
      (igS.map (fun sr => sr.recipe.sourceId)).Sublist
        ((platformResultsOf wEnvC10 "u" ["egg"]).2.map (fun c => c.postId)) ∧
      (∃ t, (scoredPhase wEnvC10 emptyCache "u" ["egg"]).filter
          (fun sr => sr.score.coverageScore = mkRat 3 4) =
        ([{ recipe := wRecipeC10, score := wScore }] : List ScoredRecipe).filter
          (fun sr => sr.score.coverageScore = mkRat 3 4) ++ t) ∧
      ([{ recipe := wRecipeC10, score := wScore }] : List ScoredRecipe).filter
          (fun sr => sr.score.coverageScore = mkRat 3 4) =
        (([{ recipe := wRecipeC10, score := wScore }] : List ScoredRecipe).filter
          (fun sr => sr.score.coverageScore = mkRat 3 4)).filter
          (fun sr => sr.recipe.source = Source.youtube) ++
        (([{ recipe := wRecipeC10, score := wScore }] : List ScoredRecipe).filter
          (fun sr => sr.score.coverageScore = mkRat 3 4)).filter
          (fun sr => sr.recipe.source = Source.instagram) := by
  have hs : cacheSourceSound emptyCache := by
    intro s sid rid r h1 h2
    simp [emptyCache] at h1
  have hf : ∀ m, idFreshFor emptyCache (wEnvC10.freshIds m) := by
    intro m k rid h
    simp [emptyCache] at h
  have hinj : ∀ a b, wEnvC10.freshIds a = wEnvC10.freshIds b → a = b := by
    intro a b h
    have h2 : ('u' :: List.replicate a 'x') = ('u' :: List.replicate b 'x') :=
      congrArg String.data h
    have h3 : List.replicate a 'x' = List.replicate b 'x' := by injection h2
    have h4 := congrArg List.length h3
    simpa using h4
  exact equal_score_platform_order wEnvC10 emptyCache "u" ["egg"] 15
    [{ recipe := wRecipeC10, score := wScore }] (cachePut emptyCache wRecipeC10 0)
    hs hf hinj (by decide) (mkRat 3 4)

end Kondate
